import Mathlib

namespace Synkti

/-- Lifecycle state of an EC2 instance (src/crates/applications/synkti-orchestrator/src/instance.rs). -/
inductive InstanceState where
  | Pending | Running | Stopping | Stopped | ShuttingDown | Terminated
deriving DecidableEq, Repr

/-- A node, from `Ec2Instance` in src/crates/applications/synkti-orchestrator/src/instance.rs.
`launch_time` is the chrono timestamp modelled as an integer (chrono `DateTime` orders by
timeline instant); f64 memory/bandwidth fields are modelled as rationals. -/
structure Ec2Instance where
  id : String
  instance_type : String
  state : InstanceState
  public_ip : Option String
  private_ip : Option String
  launch_time : Int
  gpu_memory_gb : ℚ
  network_bandwidth_gbps : ℚ
  gpu_memory_used_mb : ℚ
  tags : List (String × String)
deriving DecidableEq, Repr

/-- `Ec2Instance::available_memory_mb`: `(gpu_memory_gb * 1024.0) - gpu_memory_used_mb`. -/
def Ec2Instance.available_memory_mb (i : Ec2Instance) : ℚ :=
  i.gpu_memory_gb * 1024 - i.gpu_memory_used_mb

/-- `Ec2Instance::can_fit_memory`: `available_memory_mb() >= required_mb`. -/
def Ec2Instance.can_fit_memory (i : Ec2Instance) (required_mb : ℚ) : Bool :=
  required_mb ≤ i.available_memory_mb

/-- Assignment strategies (src/crates/applications/synkti-orchestrator/src/assign.rs). -/
inductive AssignmentStrategy where
  | EarliestNode | LeastLoaded | WarmLeastLoaded | Random
deriving DecidableEq, Repr

/-- `Workload` from assign.rs. -/
structure Workload where
  model_id : String
  memory_required_mb : ℚ
  active_requests : Nat
deriving DecidableEq, Repr

/-- `AssignmentCandidate` from assign.rs; the `HashSet<String>` of loaded models is
modelled as a list queried by membership. -/
structure AssignmentCandidate where
  inst : Ec2Instance
  active_requests : Nat
  loaded_models : List String
deriving DecidableEq, Repr

/-- `AssignmentCandidate::has_model`. -/
def AssignmentCandidate.has_model (c : AssignmentCandidate) (model_id : String) : Bool :=
  c.loaded_models.contains model_id

/-- Rust `Iterator::min_by_key`: the minimum of the list by `key`; when several
elements are equally minimum, the first one is returned. -/
def minByKey {α β : Type} [LinearOrder β] (key : α → β) : List α → Option α
  | [] => none
  | x :: xs =>
    match minByKey key xs with
    | none => some x
    | some m => if key m < key x then some m else some x

/-- `NodeAssigner::select_earliest`: min over candidates by `instance.launch_time`. -/
def select_earliest (candidates : List AssignmentCandidate) : Option Ec2Instance :=
  (minByKey (fun c => c.inst.launch_time) candidates).map (·.inst)

/-- `NodeAssigner::select_least_loaded`: min over candidates by `active_requests`. -/
def select_least_loaded (candidates : List AssignmentCandidate) : Option Ec2Instance :=
  (minByKey (fun c => c.active_requests) candidates).map (·.inst)

/-- `NodeAssigner::select_warm_least_loaded`: among candidates holding the model,
least loaded; if none holds it, least loaded over all candidates. -/
def select_warm_least_loaded (candidates : List AssignmentCandidate) (model_id : String) :
    Option Ec2Instance :=
  let warm := candidates.filter (fun c => c.has_model model_id)
  if warm.isEmpty then select_least_loaded candidates else select_least_loaded warm

/-- `NodeAssigner::select_random`: index `hash % len` where `hash` is derived from the
wall clock (`SystemTime::now()` fed to `DefaultHasher`); the hash value is taken as an
input since it is external entropy. -/
def select_random (hash : Nat) (candidates : List AssignmentCandidate) : Option Ec2Instance :=
  if candidates.isEmpty then none
  else (candidates.get? (hash % candidates.length)).map (·.inst)

/-- The filter step of `NodeAssigner::select`: candidates that can fit the
workload's memory requirement. -/
def viableList (candidates : List AssignmentCandidate) (workload : Workload) :
    List AssignmentCandidate :=
  candidates.filter (fun c => c.inst.can_fit_memory workload.memory_required_mb)

/-- The dispatch step of `NodeAssigner::select`: `None` on an empty viable list,
otherwise the strategy-specific selector. -/
def selectFromViable (strategy : AssignmentStrategy) (hash : Nat)
    (viable : List AssignmentCandidate) (workload : Workload) : Option Ec2Instance :=
  if viable.isEmpty then none
  else
    match strategy with
    | .EarliestNode => select_earliest viable
    | .LeastLoaded => select_least_loaded viable
    | .WarmLeastLoaded => select_warm_least_loaded viable workload.model_id
    | .Random => select_random hash viable

/-- `NodeAssigner::select`: filter candidates that fit the workload's memory, return
`None` if the viable list is empty, otherwise dispatch on the strategy. -/
def NodeAssigner.select (strategy : AssignmentStrategy) (hash : Nat)
    (candidates : List AssignmentCandidate) (workload : Workload) : Option Ec2Instance :=
  selectFromViable strategy hash (viableList candidates workload) workload

theorem minByKey_mem {α β : Type} [LinearOrder β] (key : α → β) :
    ∀ (l : List α) (a : α), minByKey key l = some a → a ∈ l := by
  intro l
  induction l with
  | nil => intro a h; simp [minByKey] at h
  | cons x xs ih =>
    intro a h
    simp only [minByKey] at h
    cases hm : minByKey key xs with
    | none => rw [hm] at h; cases h; exact List.mem_cons_self _ _
    | some m =>
      rw [hm] at h
      by_cases hlt : key m < key x
      · simp [hlt] at h; subst h; exact List.mem_cons_of_mem _ (ih m hm)
      · simp [hlt] at h; subst h; exact List.mem_cons_self _ _

theorem minByKey_ne_none {α β : Type} [LinearOrder β] (key : α → β)
    (l : List α) (hne : l ≠ []) : minByKey key l ≠ none := by
  cases l with
  | nil => exact absurd rfl hne
  | cons x xs =>
    simp only [minByKey]
    cases minByKey key xs with
    | none => simp
    | some m => by_cases h : key m < key x <;> simp [h]

/-- `min_by_key` returns the first element among the minima: if `c` has a key
strictly below everything before it and at most everything after it, `c` wins. -/
theorem minByKey_first_min {α β : Type} [LinearOrder β] (key : α → β) :
    ∀ (pre : List α) (c : α) (post : List α),
      (∀ b ∈ pre, key c < key b) → (∀ b ∈ post, key c ≤ key b) →
      minByKey key (pre ++ c :: post) = some c := by
  intro pre
  induction pre with
  | nil =>
    intro c post _ hpost
    simp only [List.nil_append, minByKey]
    cases hm : minByKey key post with
    | none => rfl
    | some m =>
      have hmem := minByKey_mem key post m hm
      have : ¬ key m < key c := not_lt.mpr (hpost m hmem)
      simp [this]
  | cons x pre' ih =>
    intro c post hpre hpost
    have hx : key c < key x := hpre x (List.mem_cons_self _ _)
    have hrec : minByKey key (pre' ++ c :: post) = some c :=
      ih c post (fun b hb => hpre b (List.mem_cons_of_mem _ hb)) hpost
    simp [List.cons_append, minByKey, hrec, hx]

theorem selectFromViable_cons_ne_none (s : AssignmentStrategy) (hash : Nat)
    (v : AssignmentCandidate) (vs : List AssignmentCandidate) (W : Workload) :
    selectFromViable s hash (v :: vs) W ≠ none := by
  unfold selectFromViable
  simp only [List.isEmpty_cons, Bool.false_eq_true, if_neg, not_false_eq_true]
  cases s with
  | EarliestNode =>
    unfold select_earliest
    cases hm : minByKey (fun c => c.inst.launch_time) (v :: vs) with
    | none => exact absurd hm (minByKey_ne_none _ _ (List.cons_ne_nil v vs))
    | some m => simp
  | LeastLoaded =>
    unfold select_least_loaded
    cases hm : minByKey (fun c => c.active_requests) (v :: vs) with
    | none => exact absurd hm (minByKey_ne_none _ _ (List.cons_ne_nil v vs))
    | some m => simp
  | WarmLeastLoaded =>
    unfold select_warm_least_loaded select_least_loaded
    cases hw : (v :: vs).filter (fun c => c.has_model W.model_id) with
    | nil =>
      simp only [hw, List.isEmpty_nil, if_pos]
      cases hm : minByKey (fun c => c.active_requests) (v :: vs) with
      | none => exact absurd hm (minByKey_ne_none _ _ (List.cons_ne_nil v vs))
      | some m => simp
    | cons w ws =>
      simp only [hw, List.isEmpty_cons, Bool.false_eq_true, if_neg,
        not_false_eq_true]
      cases hm : minByKey (fun c => c.active_requests) (w :: ws) with
      | none => exact absurd hm (minByKey_ne_none _ _ (List.cons_ne_nil w ws))
      | some m => simp
  | Random =>
    unfold select_random
    simp only [List.isEmpty_cons, Bool.false_eq_true, if_neg, not_false_eq_true]
    have hlt : hash % (v :: vs).length < (v :: vs).length := Nat.mod_lt _ (by simp)
    rw [List.get?_eq_get hlt]
    simp

theorem select_none_iff_viable_nil (s : AssignmentStrategy) (hash : Nat)
    (C : List AssignmentCandidate) (W : Workload) :
    NodeAssigner.select s hash C W = none ↔ viableList C W = [] := by
  unfold NodeAssigner.select
  cases hv : viableList C W with
  | nil => simp [selectFromViable]
  | cons v vs =>
    constructor
    · intro hsel; exact absurd hsel (selectFromViable_cons_ne_none s hash v vs W)
    · intro h; exact absurd h (List.cons_ne_nil v vs)

/-- C2: for every placement strategy (and any entropy value for the Random one),
`select` returns `none` iff no candidate has `memory_total − memory_used ≥ W.memory`;
and a candidate whose free memory exactly equals the requirement keeps `select` from
returning `none` (the comparison is `≥`, not `>`). -/
theorem C2_select_none_iff_no_viable (s : AssignmentStrategy) (hash : Nat)
    (C : List AssignmentCandidate) (W : Workload) :
    (NodeAssigner.select s hash C W = none ↔
      ∀ c ∈ C, ¬ (W.memory_required_mb ≤ c.inst.available_memory_mb)) ∧
    (∀ c ∈ C, c.inst.available_memory_mb = W.memory_required_mb →
      NodeAssigner.select s hash C W ≠ none) := by
  constructor
  · rw [select_none_iff_viable_nil]
    unfold viableList
    rw [List.filter_eq_nil_iff]
    constructor
    · intro h c hc
      have := h c hc
      simpa [Ec2Instance.can_fit_memory] using this
    · intro h c hc
      simpa [Ec2Instance.can_fit_memory] using h c hc
  · intro c hc heq hnone
    rw [select_none_iff_viable_nil] at hnone
    have : c ∈ viableList C W := by
      unfold viableList
      rw [List.mem_filter]
      exact ⟨hc, by simp [Ec2Instance.can_fit_memory, heq]⟩
    rw [hnone] at this
    exact absurd this (List.not_mem_nil c)

/-- Demo node for concrete evaluations: 24 GB card, nothing used. -/
def demoInst : Ec2Instance :=
  { id := "i-demo", instance_type := "g5.xlarge", state := .Running,
    public_ip := none, private_ip := some "10.0.0.1", launch_time := 1700000000,
    gpu_memory_gb := 24, network_bandwidth_gbps := 10, gpu_memory_used_mb := 0,
    tags := [] }

/-- A workload whose memory requirement exactly equals the demo node's free memory. -/
def demoExactWorkload : Workload :=
  { model_id := "llama-7b", memory_required_mb := 24 * 1024, active_requests := 0 }

theorem C2_select_none_iff_no_viable_witness :
    NodeAssigner.select .EarliestNode 0
      [{ inst := demoInst, active_requests := 0, loaded_models := [] }]
      demoExactWorkload ≠ none :=
  (C2_select_none_iff_no_viable .EarliestNode 0
      [{ inst := demoInst, active_requests := 0, loaded_models := [] }]
      demoExactWorkload).2
    { inst := demoInst, active_requests := 0, loaded_models := [] }
    (List.mem_singleton.mpr rfl)
    (by norm_num [demoInst, demoExactWorkload, Ec2Instance.available_memory_mb])

/-- Node with id "b"; same launch time and load as [[demoTieInstA]]. -/
def demoTieInstB : Ec2Instance :=
  { id := "b", instance_type := "g5.xlarge", state := .Running,
    public_ip := none, private_ip := some "10.0.0.2", launch_time := 1700000000,
    gpu_memory_gb := 24, network_bandwidth_gbps := 10, gpu_memory_used_mb := 0,
    tags := [] }

/-- Node with id "a"; same launch time and load as [[demoTieInstB]]. -/
def demoTieInstA : Ec2Instance :=
  { id := "a", instance_type := "g5.xlarge", state := .Running,
    public_ip := none, private_ip := some "10.0.0.3", launch_time := 1700000000,
    gpu_memory_gb := 24, network_bandwidth_gbps := 10, gpu_memory_used_mb := 0,
    tags := [] }

/-- Candidate wrapper for [[demoTieInstB]]. -/
def demoTieCandB : AssignmentCandidate :=
  { inst := demoTieInstB, active_requests := 3, loaded_models := [] }

/-- Candidate wrapper for [[demoTieInstA]]. -/
def demoTieCandA : AssignmentCandidate :=
  { inst := demoTieInstA, active_requests := 3, loaded_models := [] }

/-- Workload used in the tie demonstrations. -/
def demoTieWorkload : Workload :=
  { model_id := "llama-7b", memory_required_mb := 8000, active_requests := 0 }

theorem demoTie_viable_BA :
    viableList [demoTieCandB, demoTieCandA] demoTieWorkload
      = [demoTieCandB, demoTieCandA] := by
  norm_num [viableList, List.filter, demoTieCandB, demoTieCandA, demoTieInstB,
    demoTieInstA, demoTieWorkload, Ec2Instance.can_fit_memory,
    Ec2Instance.available_memory_mb]

theorem demoTie_viable_AB :
    viableList [demoTieCandA, demoTieCandB] demoTieWorkload
      = [demoTieCandA, demoTieCandB] := by
  norm_num [viableList, List.filter, demoTieCandB, demoTieCandA, demoTieInstB,
    demoTieInstA, demoTieWorkload, Ec2Instance.can_fit_memory,
    Ec2Instance.available_memory_mb]

/-- C3 counterexample: two viable candidates tie on launch time (and on active
requests), yet `select` returns the candidate with node id "b", not the one with
the lexicographically smallest id "a" — and reversing the supplied order flips
the result, so the choice also depends on the order candidates are supplied in. -/
theorem C3_counterexample :
    NodeAssigner.select .EarliestNode 0 [demoTieCandB, demoTieCandA] demoTieWorkload
        = some demoTieInstB ∧
    NodeAssigner.select .EarliestNode 0 [demoTieCandA, demoTieCandB] demoTieWorkload
        = some demoTieInstA ∧
    NodeAssigner.select .LeastLoaded 0 [demoTieCandB, demoTieCandA] demoTieWorkload
        = some demoTieInstB ∧
    demoTieInstB.launch_time = demoTieInstA.launch_time ∧
    demoTieCandB.active_requests = demoTieCandA.active_requests ∧
    demoTieInstB.id = "b" ∧ demoTieInstA.id = "a" ∧
    demoTieInstB.id ≠ demoTieInstA.id := by
  refine ⟨?_, ?_, ?_, rfl, rfl, rfl, rfl, by simp [demoTieInstA, demoTieInstB]⟩
  · rw [NodeAssigner.select, demoTie_viable_BA]
    simp [selectFromViable, select_earliest, minByKey, demoTieCandB, demoTieCandA,
      demoTieInstB, demoTieInstA]
  · rw [NodeAssigner.select, demoTie_viable_AB]
    simp [selectFromViable, select_earliest, minByKey, demoTieCandB, demoTieCandA,
      demoTieInstB, demoTieInstA]
  · rw [NodeAssigner.select, demoTie_viable_BA]
    simp [selectFromViable, select_least_loaded, minByKey, demoTieCandB,
      demoTieCandA, demoTieInstB, demoTieInstA]

/-- C3 amended: for Earliest and LeastLoaded, ties on the primary key are broken by
the position in the supplied candidate list (Rust `min_by_key` returns the first
minimal element), not by node id: the viable candidate returned is the first one
whose key is strictly below every earlier viable candidate's and at most every
later one's. -/
theorem C3_tie_break_first_in_supplied_order (hash : Nat)
    (C : List AssignmentCandidate) (W : Workload)
    (pre post : List AssignmentCandidate) (c : AssignmentCandidate) :
    (viableList C W = pre ++ c :: post →
      (∀ b ∈ pre, c.inst.launch_time < b.inst.launch_time) →
      (∀ b ∈ post, c.inst.launch_time ≤ b.inst.launch_time) →
      NodeAssigner.select .EarliestNode hash C W = some c.inst) ∧
    (viableList C W = pre ++ c :: post →
      (∀ b ∈ pre, c.active_requests < b.active_requests) →
      (∀ b ∈ post, c.active_requests ≤ b.active_requests) →
      NodeAssigner.select .LeastLoaded hash C W = some c.inst) := by
  constructor
  · intro hv hpre hpost
    rw [NodeAssigner.select, hv]
    unfold selectFromViable
    rw [List.isEmpty_eq_false_iff_exists_mem.mpr ⟨c, by simp⟩]
    simp only [Bool.false_eq_true, if_neg, not_false_eq_true]
    unfold select_earliest
    rw [minByKey_first_min _ pre c post hpre hpost]
    rfl
  · intro hv hpre hpost
    rw [NodeAssigner.select, hv]
    unfold selectFromViable
    rw [List.isEmpty_eq_false_iff_exists_mem.mpr ⟨c, by simp⟩]
    simp only [Bool.false_eq_true, if_neg, not_false_eq_true]
    unfold select_least_loaded
    rw [minByKey_first_min _ pre c post hpre hpost]
    rfl

theorem C3_tie_break_first_in_supplied_order_witness :
    NodeAssigner.select .EarliestNode 0 [demoTieCandB, demoTieCandA] demoTieWorkload
      = some demoTieCandB.inst :=
  (C3_tie_break_first_in_supplied_order 0 [demoTieCandB, demoTieCandA]
      demoTieWorkload [] [demoTieCandA] demoTieCandB).1
    demoTie_viable_BA
    (fun b hb => absurd hb (List.not_mem_nil b))
    (fun b hb => by rw [List.mem_singleton.mp hb]; exact le_of_eq rfl)


/-! ## Drain controller and vLLM observability adapter

From src/crates/synkti-agent/src/drain.rs and src/crates/synkti-agent/src/vllm.rs.
HTTP is modelled by the outcome each endpoint would deliver: the `/metrics` fetch
is an `Except` (error = request failed or non-success status, as in
`VllmClient::get_metrics`), the `/health` fetch an optional status code
(`none` = request error). The outcomes are held fixed across the (up to four)
metric fetches made inside one `check_inflight_status` poll; successive polls may
see different outcomes via the poll stream. -/

/-- `DrainStatus` from drain.rs. -/
inductive DrainStatus where
  | Draining | Drained | TimedOut | Failed
deriving DecidableEq, Repr

/-- `DrainResult` from drain.rs. `drain_time_secs` is wall-clock time, which the
embedding does not model; it is reported as 0. -/
structure DrainResult where
  status : DrainStatus
  drain_time_secs : ℚ
  instance_id : String
deriving DecidableEq, Repr

/-- What the engine's HTTP surface would answer during one status check. -/
structure VllmEnv where
  /-- Outcome of `VllmClient::get_metrics`: the body text, or an error when the
  request fails or the response status is not a success. -/
  metrics : Except String String
  /-- Status code answered on `GET /health`, `none` when the request errors. -/
  health : Option Nat
deriving Repr

/-- `reqwest::StatusCode::is_success`: 2xx. -/
def statusIsSuccess (st : Nat) : Bool := 200 ≤ st && st < 300

/-- Rust `str::split_whitespace().last()`: last whitespace-separated token. -/
def lastWhitespaceToken (line : String) : Option String :=
  ((line.split (fun c => c.isWhitespace)).filter (fun t => !t.isEmpty)).getLast?

/-- Rust `value_str.parse::<f64>()` followed by `value as u32`, for the
nonnegative decimal literals Prometheus gauges carry (`"7"`, `"7.0"`); other
float syntaxes are treated as parse failures (no claim depends on them). -/
def parseF64AsU32 (s : String) : Option Nat :=
  match s.splitOn "." with
  | [ip] => ip.toNat?
  | [ip, fp] => if !fp.isEmpty && (fp.toNat?).isSome then ip.toNat? else none
  | _ => none

/-- The scanning loop shared by `get_running_requests` / `get_waiting_requests`:
skip blank and `#` comment lines; on a line starting with either gauge name,
take the last whitespace token and return it parsed; on parse failure keep
scanning; `none` when no line yields a value. -/
def findGauge (pfx1 pfx2 : String) : List String → Option Nat
  | [] => none
  | line :: rest =>
    let l := line.trim
    if l.isEmpty || l.startsWith "#" then findGauge pfx1 pfx2 rest
    else if l.startsWith pfx1 || l.startsWith pfx2 then
      match lastWhitespaceToken l with
      | some tok =>
        match parseF64AsU32 tok with
        | some v => some v
        | none => findGauge pfx1 pfx2 rest
      | none => findGauge pfx1 pfx2 rest
    else findGauge pfx1 pfx2 rest

/-- `VllmClient::get_running_requests`: 0 when the metrics fetch fails, the
parsed `vllm:num_requests_running` / `vllm_num_requests_running` gauge
otherwise, 0 when the gauge is absent. -/
def get_running_requests (metrics : Except String String) : Except String Nat :=
  match metrics with
  | .error _ => .ok 0
  | .ok body =>
    match findGauge "vllm:num_requests_running" "vllm_num_requests_running"
        (body.splitOn "\x0a") with
    | some v => .ok v
    | none => .ok 0

/-- `VllmClient::get_waiting_requests`: same scheme for the waiting gauge. -/
def get_waiting_requests (metrics : Except String String) : Except String Nat :=
  match metrics with
  | .error _ => .ok 0
  | .ok body =>
    match findGauge "vllm:num_requests_waiting" "vllm_num_requests_waiting"
        (body.splitOn "\x0a") with
    | some v => .ok v
    | none => .ok 0

/-- `VllmClient::health_check`: `Ok(status.is_success())`, `Ok(false)` on a
request error; it never returns `Err`. -/
def health_check (health : Option Nat) : Except String Bool :=
  match health with
  | none => .ok false
  | some st => .ok (statusIsSuccess st)

/-- `VllmClient::is_idle`: both gauges zero. -/
def is_idle (metrics : Except String String) : Except String Bool :=
  match get_running_requests metrics with
  | .error e => .error e
  | .ok running =>
    match get_waiting_requests metrics with
    | .error e => .error e
    | .ok waiting => .ok (running == 0 && waiting == 0)

/-- `DrainManager::check_inflight_status` (synkti-agent): `Ok(false)` = idle,
`Ok(true)` = still in flight. The `Err` arm falls back to the health check and
comments that a healthy engine with unavailable metrics is conservatively
non-idle — but `is_idle` never returns `Err`, so that arm is unreachable. -/
def check_inflight_status (env : VllmEnv) : Except String Bool :=
  match is_idle env.metrics with
  | .ok true => .ok false
  | .ok false =>
    match get_running_requests env.metrics, get_waiting_requests env.metrics with
    | .ok _, .ok _ => .ok true
    | _, _ => .ok true
  | .error _ =>
    match health_check env.health with
    | .ok true => .ok true
    | .ok false => .ok false
    | .error _ => .ok false

/-- `DrainManager::set_draining` (no load balancer configured): logs and
returns `Ok(())`. -/
def set_draining (_instance_id : String) : Except String Unit := .ok ()

/-- The polling loop of `DrainManager::wait_for_inflight`. `fuel` is the number
of polls the drain budget still allows (the `elapsed >= timeout` exit is fuel
exhaustion); `poll k` is the status-check outcome of the k-th poll. -/
def waitForInflightAux (poll : Nat → Except String Bool) :
    Nat → Nat → Except String DrainStatus
  | 0, _ => .ok .TimedOut
  | fuel + 1, k =>
    match poll k with
    | .ok true => waitForInflightAux poll fuel (k + 1)
    | .ok false => .ok .Drained
    | .error _ => .ok .Drained

/-- `DrainManager::wait_for_inflight`: poll until idle (`Drained`), an error
(also `Drained`), or the budget runs out (`TimedOut`). -/
def wait_for_inflight (poll : Nat → Except String Bool) (fuel : Nat) :
    Except String DrainStatus :=
  waitForInflightAux poll fuel 0

/-- `DrainManager::drain` (without load-balancer integration): mark draining,
wait for in-flight, assemble the `DrainResult`. -/
def DrainManager.drain (instance_id : String) (poll : Nat → Except String Bool)
    (fuel : Nat) : Except String DrainResult :=
  match set_draining instance_id with
  | .error e => .error e
  | .ok _ =>
    match wait_for_inflight poll fuel with
    | .error e => .error e
    | .ok status => .ok { status := status, drain_time_secs := 0, instance_id := instance_id }

/-- C1 (code bug): on a poll where the metrics endpoint is unreachable but
`GET /health` answers 200, `check_inflight_status` reports the engine idle
(`Ok(false)`) — `get_running_requests`/`get_waiting_requests` map the failed
fetch to `Ok(0)`, so `is_idle` yields `Ok(true)` and the conservative
healthy-fallback arm of `check_inflight_status` is dead code — and the drain
loop therefore declares `Drained` on its first poll instead of waiting. -/
theorem C1_unreadable_metrics_healthy_engine_declared_drained :
    check_inflight_status { metrics := .error "connection refused", health := some 200 }
      = .ok false ∧
    wait_for_inflight
      (fun _ => check_inflight_status
        { metrics := .error "connection refused", health := some 200 }) 230
      = .ok .Drained := by
  constructor <;> rfl

/-- C10: `DrainManager::drain` without load-balancer integration is infallible:
for every instance id, poll-outcome stream, and budget it returns `Ok`, and the
resulting status is `Drained` or `TimedOut` — never `Failed` or `Draining`
(`set_draining` always succeeds and polling errors are mapped to `Drained`). -/
theorem C10_drain_infallible (instance_id : String)
    (poll : Nat → Except String Bool) (fuel : Nat) :
    ∃ r, DrainManager.drain instance_id poll fuel = .ok r ∧
      (r.status = .Drained ∨ r.status = .TimedOut) := by
  have aux : ∀ (n k : Nat), ∃ s, waitForInflightAux poll n k = .ok s ∧
      (s = .Drained ∨ s = .TimedOut) := by
    intro n
    induction n with
    | zero => intro k; exact ⟨.TimedOut, rfl, Or.inr rfl⟩
    | succ m ih =>
      intro k
      unfold waitForInflightAux
      cases poll k with
      | ok b =>
        cases b with
        | true => exact ih (k + 1)
        | false => exact ⟨.Drained, rfl, Or.inl rfl⟩
      | error e => exact ⟨.Drained, rfl, Or.inl rfl⟩
  obtain ⟨s, hs, hcase⟩ := aux fuel 0
  refine ⟨{ status := s, drain_time_secs := 0, instance_id := instance_id }, ?_, hcase⟩
  unfold DrainManager.drain set_draining wait_for_inflight
  rw [hs]


/-! ## Simulation engine data model

From src/crates/applications/synkti-simulation-engine/src/types.rs (the richer
`Task`/`Instance` used by the tessera-simulation-engine modules below; the copy
of types.rs in tessera-simulation-engine lacks the resource fields those modules
read). f64 fields are modelled as rationals. -/

namespace Sim

/-- `InstanceType` (simulation engine). -/
inductive InstanceType where
  | Spot | OnDemand
deriving DecidableEq, Repr

/-- `InstanceState` (simulation engine). -/
inductive InstanceState where
  | Running | Preempted | Terminated
deriving DecidableEq, Repr

/-- `CheckpointState` from types.rs. -/
structure CheckpointState where
  tokens_saved : Nat
  kv_cache_saved_mb : ℚ
  checkpoint_time : ℚ
  transfer_complete : Bool
deriving DecidableEq, Repr

/-- `Task` from types.rs. -/
structure Task where
  id : Nat
  arrival_time : ℚ
  duration : ℚ
  remaining_time : ℚ
  assigned_instance : Option Nat
  start_time : Option ℚ
  completion_time : Option ℚ
  tokens_total : Nat
  tokens_completed : Nat
  kv_cache_size_mb : ℚ
  checkpoint_state : Option CheckpointState
  last_checkpoint_time : Option ℚ
  checkpoint_transfer_time_sec : ℚ
  preemption_count : Nat
deriving DecidableEq, Repr

/-- `Instance` from types.rs. -/
structure Instance where
  id : Nat
  instance_type : InstanceType
  state : InstanceState
  hourly_cost : ℚ
  start_time : ℚ
  end_time : Option ℚ
  gpu_memory_gb : ℚ
  gpu_memory_used_mb : ℚ
  network_bandwidth_gbps : ℚ
  preemption_warning_time : Option ℚ
deriving DecidableEq, Repr

/-- `Task::new`: tokens estimated as `(duration * 100.0) as u64`, KV cache as
`(duration * 200.0).min(8000.0)` MB. The `as u64` cast truncates toward zero
(durations are nonnegative in every use below). -/
def Task.new (id : Nat) (arrival_time duration : ℚ) : Task :=
  { id := id
    arrival_time := arrival_time
    duration := duration
    remaining_time := duration
    assigned_instance := none
    start_time := none
    completion_time := none
    tokens_total := (⌊duration * 100⌋).toNat
    tokens_completed := 0
    kv_cache_size_mb := min (duration * 200) 8000
    checkpoint_state := none
    last_checkpoint_time := none
    checkpoint_transfer_time_sec := 0
    preemption_count := 0 }

/-- `Instance::new`: defaults to a 24 GB accelerator with 10 Gb/s networking for
both spot and on-demand. -/
def Instance.new (id : Nat) (instance_type : InstanceType) (hourly_cost start_time : ℚ) :
    Instance :=
  { id := id
    instance_type := instance_type
    state := .Running
    hourly_cost := hourly_cost
    start_time := start_time
    end_time := none
    gpu_memory_gb := 24
    gpu_memory_used_mb := 0
    network_bandwidth_gbps := 10
    preemption_warning_time := none }

/-- `Instance::available_memory_mb` (simulation engine): `gpu_memory_gb * 1000.0
- gpu_memory_used_mb`. -/
def Instance.available_memory_mb (i : Instance) : ℚ :=
  i.gpu_memory_gb * 1000 - i.gpu_memory_used_mb

/-- `Task::can_fit_in_memory`. -/
def Task.can_fit_in_memory (t : Task) (available_memory_mb : ℚ) : Bool :=
  t.kv_cache_size_mb ≤ available_memory_mb

/-- `Task::progress_percentage`. -/
def Task.progress_percentage (t : Task) : ℚ :=
  if t.tokens_total = 0 then 0
  else ((t.tokens_completed : ℚ) / (t.tokens_total : ℚ)) * 100

end Sim

/-! ## Checkpoint planner

From src/crates/applications/tessera-simulation-engine/src/checkpoint.rs. -/

/-- `GRACE_PERIOD_SECONDS`. -/
def GRACE_PERIOD_SECONDS : ℚ := 120

/-- `FULL_CHECKPOINT_THRESHOLD` (0.8). -/
def FULL_CHECKPOINT_THRESHOLD : ℚ := 8 / 10

/-- `PARTIAL_CHECKPOINT_THRESHOLD` (0.3). -/
def PARTIAL_CHECKPOINT_THRESHOLD : ℚ := 3 / 10

/-- `CheckpointDecision` from checkpoint.rs. -/
inductive CheckpointDecision where
  | FullCheckpoint (transferable_mb estimated_time : ℚ) (tokens_saved : Nat)
  | PartialCheckpoint (transferable_mb estimated_time : ℚ) (tokens_saved : Nat)
      (completion_percentage : ℚ)
  | Restart (reason : String)
deriving DecidableEq, Repr

/-- `CheckpointDecision` shape tests, for stating the threshold trichotomy. -/
def CheckpointDecision.isFull : CheckpointDecision → Bool
  | .FullCheckpoint _ _ _ => true
  | _ => false

def CheckpointDecision.isPartial : CheckpointDecision → Bool
  | .PartialCheckpoint _ _ _ _ => true
  | _ => false

def CheckpointDecision.isRestart : CheckpointDecision → Bool
  | .Restart _ => true
  | _ => false

/-- `CheckpointPlanner::calculate_transferable_data`: bandwidth (Gb/s) × 125
(MB/s per Gb/s) × the 120 s grace window. -/
def calculate_transferable_data (inst : Sim.Instance) : ℚ :=
  inst.network_bandwidth_gbps * 125 * GRACE_PERIOD_SECONDS

/-- `CheckpointPlanner::estimate_transfer_time`. -/
def estimate_transfer_time (data_mb : ℚ) (inst : Sim.Instance) : ℚ :=
  data_mb / (inst.network_bandwidth_gbps * 125)

/-- `CheckpointPlanner::calculate_tokens_saved`: `(tokens_completed as f64 *
checkpoint_ratio) as u64` (truncation toward zero; the ratio is nonnegative
whenever this is reached). -/
def calculate_tokens_saved (task : Sim.Task) (checkpoint_ratio : ℚ) : Nat :=
  (⌊(task.tokens_completed : ℚ) * checkpoint_ratio⌋).toNat

/-- `CheckpointPlanner::plan_checkpoint`: a task with no completed tokens is
always `Restart`; a ≥95 %-complete task that can finish inside the grace window
is `FullCheckpoint` with no transfer; otherwise the decision follows the
`transferable / kv_cache` ratio against the 0.8 / 0.3 thresholds. The `Restart`
reason string in the ratio branch interpolates the percentage in the source; it
is modelled by a fixed string. -/
def plan_checkpoint (task : Sim.Task) (inst : Sim.Instance) : CheckpointDecision :=
  if task.tokens_completed = 0 then
    .Restart "Task just started, no progress to save"
  else if 95 ≤ task.progress_percentage ∧
      task.remaining_time ≤ GRACE_PERIOD_SECONDS / 3600 then
    .FullCheckpoint task.kv_cache_size_mb 0 task.tokens_completed
  else
    let transferable_mb := calculate_transferable_data inst
    let checkpoint_ratio := transferable_mb / task.kv_cache_size_mb
    if FULL_CHECKPOINT_THRESHOLD ≤ checkpoint_ratio then
      let actual_transfer_mb := min task.kv_cache_size_mb transferable_mb
      .FullCheckpoint actual_transfer_mb
        (estimate_transfer_time actual_transfer_mb inst) task.tokens_completed
    else if PARTIAL_CHECKPOINT_THRESHOLD ≤ checkpoint_ratio then
      .PartialCheckpoint transferable_mb
        (estimate_transfer_time transferable_mb inst)
        (calculate_tokens_saved task checkpoint_ratio) (checkpoint_ratio * 100)
    else
      .Restart "below partial checkpoint threshold"

/-- A freshly arrived 10 h task: 2000 MB KV cache and no completed tokens. -/
def demoFreshTask : Sim.Task := Sim.Task.new 1 0 10

/-- A default simulator instance (24 GB, 10 Gb/s). -/
def demoSimInstance : Sim.Instance := Sim.Instance.new 100 .Spot (3/10) 0

/-- C7 counterexample: a displaced task with zero completed tokens gets
`Restart` even though `bandwidth·grace / kv_cache = 150000/2000 = 75 ≥ 0.8`,
where the claim requires `Full`. (In the simulator every first-time-preempted
task has `tokens_completed = 0`, so this is the common case.) -/
theorem C7_counterexample :
    plan_checkpoint demoFreshTask demoSimInstance
        = .Restart "Task just started, no progress to save" ∧
    FULL_CHECKPOINT_THRESHOLD ≤
      calculate_transferable_data demoSimInstance / demoFreshTask.kv_cache_size_mb ∧
    demoFreshTask.tokens_completed = 0 := by
  refine ⟨rfl, ?_, rfl⟩
  · norm_num [calculate_transferable_data, demoSimInstance, demoFreshTask,
      Sim.Instance.new, Sim.Task.new, GRACE_PERIOD_SECONDS,
      FULL_CHECKPOINT_THRESHOLD]

/-- C7 amended: for a displaced task that has completed at least one token, is
not in the near-completion fast path (progress ≥ 95 % with remaining time
within the grace window), and has a positive KV cache, the planner decides
`Full` when `bandwidth·125·grace / kv_cache ≥ 0.8`, `Partial` when the ratio is
in `[0.3, 0.8)`, and `Restart` when it is below `0.3`. A task with zero
completed tokens is always `Restart`, and a near-complete task that fits in the
grace window is `Full` regardless of the ratio. -/
theorem C7_threshold_trichotomy (t : Sim.Task) (i : Sim.Instance)
    (h0 : t.tokens_completed ≠ 0)
    (h95 : ¬ (95 ≤ t.progress_percentage ∧
      t.remaining_time ≤ GRACE_PERIOD_SECONDS / 3600))
    (_hkv : 0 < t.kv_cache_size_mb) :
    (FULL_CHECKPOINT_THRESHOLD ≤ calculate_transferable_data i / t.kv_cache_size_mb →
      (plan_checkpoint t i).isFull = true) ∧
    (PARTIAL_CHECKPOINT_THRESHOLD ≤ calculate_transferable_data i / t.kv_cache_size_mb ∧
      calculate_transferable_data i / t.kv_cache_size_mb < FULL_CHECKPOINT_THRESHOLD →
      (plan_checkpoint t i).isPartial = true) ∧
    (calculate_transferable_data i / t.kv_cache_size_mb < PARTIAL_CHECKPOINT_THRESHOLD →
      (plan_checkpoint t i).isRestart = true) := by
  unfold plan_checkpoint
  rw [if_neg h0, if_neg h95]
  refine ⟨fun hfull => ?_, fun ⟨hpart, hnotfull⟩ => ?_, fun hrestart => ?_⟩
  · rw [if_pos hfull]; rfl
  · rw [if_neg (not_le.mpr hnotfull), if_pos hpart]; rfl
  · rw [if_neg (not_le.mpr (lt_of_lt_of_le hrestart (by norm_num
      [PARTIAL_CHECKPOINT_THRESHOLD, FULL_CHECKPOINT_THRESHOLD]))),
      if_neg (not_le.mpr hrestart)]
    rfl

/-- A task half done: 500 of 1000 tokens, 8000 MB KV cache. -/
def demoHalfTask : Sim.Task :=
  { Sim.Task.new 2 0 10 with kv_cache_size_mb := 8000, tokens_completed := 500 }

/-- A slow-network instance (0.2 Gb/s): transferable 3000 MB in grace. -/
def demoSlowInstance : Sim.Instance :=
  { Sim.Instance.new 101 .Spot (3/10) 0 with network_bandwidth_gbps := 2/10 }

theorem C7_threshold_trichotomy_witness :
    (plan_checkpoint demoHalfTask demoSlowInstance).isPartial = true :=
  (C7_threshold_trichotomy demoHalfTask demoSlowInstance
      (by norm_num [demoHalfTask, Sim.Task.new])
      (by
        intro hc
        have h1 := hc.1
        rw [show demoHalfTask.progress_percentage = 50 by
          norm_num [demoHalfTask, Sim.Task.new, Sim.Task.progress_percentage]
          rw [show Int.toNat 1000 = 1000 from by omega]
          norm_num] at h1
        norm_num at h1)
      (by norm_num [demoHalfTask, Sim.Task.new])).2.1
    (by norm_num [demoHalfTask, demoSlowInstance, Sim.Task.new, Sim.Instance.new,
      calculate_transferable_data, GRACE_PERIOD_SECONDS,
      PARTIAL_CHECKPOINT_THRESHOLD, FULL_CHECKPOINT_THRESHOLD])


/-! ## Preemption monitor

From src/crates/applications/synkti-orchestrator/src/monitor.rs. The HTTP layer
is modelled after reqwest's contract: `send()` yields `Ok(response)` for every
answered request — any HTTP status, 404 included — and `Err` only for transport
failures (connect refused, timeout). A transport error's `.status()` is `None`
(a status is attached only by `error_for_status`, which this code never calls),
and `.is_connect()` distinguishes connection failures. `response.json::<T>()`
is modelled by the decoded payload carried in the response (`none` = the body
does not deserialize as `T`, e.g. the plain-text body of a 404), and
`DateTime::parse_from_rfc3339` by the pre-parsed timestamp in the payload
(`none` = invalid timestamp). -/

/-- `SpotAction` from monitor.rs. -/
inductive SpotAction where
  | Terminate | Stop | Hibernate
deriving DecidableEq, Repr

/-- `SpotAction::from_str`. -/
def SpotAction.fromStr (s : String) : Option SpotAction :=
  if s = "terminate" then some .Terminate
  else if s = "stop" then some .Stop
  else if s = "hibernate" then some .Hibernate
  else none

/-- The decoded `SpotInstanceAction` payload: the raw `action` string and the
outcome of `DateTime::parse_from_rfc3339` on the `time` string (a Unix
timestamp, `none` when the string does not parse). -/
structure SpotInstanceAction where
  action : String
  time_parsed : Option Int
deriving DecidableEq, Repr

/-- A transport-level `reqwest` error: connection failure or other (timeout …). -/
inductive ReqwestError where
  | connect | other
deriving DecidableEq, Repr

/-- `reqwest::Error::status()`: `None` for transport errors (a status is only
carried by errors produced by `error_for_status`, never called here). -/
def ReqwestError.status : ReqwestError → Option Nat
  | _ => none

/-- `reqwest::Error::is_connect()`. -/
def ReqwestError.is_connect : ReqwestError → Bool
  | .connect => true
  | .other => false

/-- An answered metadata request: HTTP status plus the outcome of decoding the
body as `SpotInstanceAction`. -/
structure MetadataResponse where
  status : Nat
  json : Option SpotInstanceAction
deriving DecidableEq, Repr

/-- `SpotInterruptionNotice` from monitor.rs. -/
structure SpotInterruptionNotice where
  action : SpotAction
  time : Int
  seconds_until_action : Nat
deriving DecidableEq, Repr

/-- `seconds_until` as computed in monitor.rs: `if time > now
{ (time - now).num_seconds().max(0) as u64 } else { 0 }`. -/
def secondsUntil (now time : Int) : Nat :=
  if now < time then (time - now).toNat else 0

/-- `SpotMonitor::check_notice`: one poll of the metadata endpoint. The 404 test
sits in the transport-error arm (`e.status() == Some(NOT_FOUND)`); an answered
404 arrives as `Ok(response)` and flows into `response.json()?`. -/
def check_notice (now : Int)
    (sendOutcome : Except ReqwestError MetadataResponse) :
    Except String (Option SpotInterruptionNotice) :=
  match sendOutcome with
  | .error e =>
    if e.status = some 404 then .ok none
    else if e.is_connect then .ok none
    else .error "HTTP error"
  | .ok response =>
    match response.json with
    | none => .error "JSON decode error"
    | some payload =>
      match SpotAction.fromStr payload.action with
      | none => .error ("Unknown spot action: " ++ payload.action)
      | some spot_action =>
        match payload.time_parsed with
        | none => .error "Invalid timestamp"
        | some time =>
          .ok (some { action := spot_action, time := time,
                      seconds_until_action := secondsUntil now time })

/-- One tick of `SpotMonitor::monitor_stream`: yields a notice only when the
response status is 200 and every decoding step succeeds; everything else —
errors included — emits nothing. -/
def monitor_stream_tick (now : Int)
    (sendOutcome : Except ReqwestError MetadataResponse) :
    Option SpotInterruptionNotice :=
  match sendOutcome with
  | .error _ => none
  | .ok response =>
    if response.status = 200 then
      match response.json with
      | none => none
      | some payload =>
        match SpotAction.fromStr payload.action with
        | none => none
        | some spot_action =>
          match payload.time_parsed with
          | none => none
          | some time =>
            some { action := spot_action, time := time,
                   seconds_until_action := secondsUntil now time }
    else none

/-- C6 (code bug): a poll answered with HTTP 404 (whose body is not the
expected JSON) makes `check_notice` return `Err` — not the documented
`Ok(None)` — because the 404 test lives in the transport-error arm that an
answered 404 never reaches, and `response.json()?` then fails on the 404 body.
The stream variant checks the status first and correctly emits nothing. -/
theorem C6_check_notice_404_errors :
    check_notice 0 (.ok { status := 404, json := none }) = .error "JSON decode error" ∧
    (∀ e : ReqwestError, e.status ≠ some 404) ∧
    monitor_stream_tick 0 (.ok { status := 404, json := none }) = none := by
  exact ⟨rfl, fun e => by cases e <;> simp [ReqwestError.status], rfl⟩

/-! ## Failover orchestrator

From src/crates/applications/synkti-orchestrator/src/failover.rs. Wall-clock
phase timings are not modelled (reported as 0); the container/client values
built by `spawn_replacement` are not modelled beyond their failure condition. -/

/-- `FailoverPhaseTimes` from failover.rs. -/
structure FailoverPhaseTimes where
  drain_secs : ℚ
  stop_secs : ℚ
  select_secs : ℚ
  spawn_secs : ℚ
  health_check_secs : ℚ
deriving DecidableEq, Repr

/-- `FailoverPhaseTimes::default()`. -/
def FailoverPhaseTimes.default : FailoverPhaseTimes :=
  { drain_secs := 0, stop_secs := 0, select_secs := 0, spawn_secs := 0,
    health_check_secs := 0 }

/-- `FailoverResult` from failover.rs. -/
structure FailoverResult where
  success : Bool
  drain : Option DrainResult
  preempted_instance_id : String
  replacement_instance_id : Option String
  total_time_secs : ℚ
  phase_times : FailoverPhaseTimes
  assignment_strategy : AssignmentStrategy
  error : Option String
deriving DecidableEq, Repr

/-- `FailoverManager::spawn_replacement`: builds the client URL from the
instance's public IP, else its private IP, and fails only when the instance has
neither (the container start itself is deferred to the caller). Returns the
API URL the client is built from. -/
def spawn_replacement (inst : Ec2Instance) (port : Nat) : Except String String :=
  match inst.public_ip with
  | some ip => .ok ("http://" ++ ip ++ ":" ++ toString port)
  | none =>
    match inst.private_ip with
    | some ip => .ok ("http://" ++ ip ++ ":" ++ toString port)
    | none => .error "Instance has no IP address"

/-- The polling loop of `FailoverManager::wait_for_healthy`: `fuel` is the
number of 2 s polls the 300 s budget allows; a failed or false health check is
retried; exhausting the budget is the only error (`OrchestratorError::Timeout`). -/
def waitForHealthyAux (poll : Nat → Except String Bool) :
    Nat → Nat → Except String Unit
  | 0, _ => .error "timeout"
  | fuel + 1, k =>
    match poll k with
    | .ok true => .ok ()
    | .ok false => waitForHealthyAux poll fuel (k + 1)
    | .error _ => waitForHealthyAux poll fuel (k + 1)

/-- `FailoverManager::wait_for_healthy`. -/
def wait_for_healthy (poll : Nat → Except String Bool) (fuel : Nat) :
    Except String Unit :=
  waitForHealthyAux poll fuel 0

/-- `FailoverManager::handle_preemption`: drain → stop (no-op) → select →
spawn → health check. A drain error, an empty selection, or a spawn failure
each abort with `success = false` and the phase's error message; a health-check
timeout is only logged (`warn!`) and the record is returned with
`success = true` and no error. The unused `notice` parameter mirrors the
source, where it only feeds logging. -/
def handle_preemption (strategy : AssignmentStrategy) (hash : Nat)
    (_notice : SpotInterruptionNotice) (preempted : Ec2Instance)
    (drainPoll : Nat → Except String Bool) (drainFuel : Nat)
    (candidates : List AssignmentCandidate) (workload : Workload) (port : Nat)
    (healthPoll : Nat → Except String Bool) (healthFuel : Nat) : FailoverResult :=
  match DrainManager.drain preempted.id drainPoll drainFuel with
  | .error e =>
    { success := false, drain := none, preempted_instance_id := preempted.id,
      replacement_instance_id := none, total_time_secs := 0,
      phase_times := FailoverPhaseTimes.default, assignment_strategy := strategy,
      error := some ("Drain failed: " ++ e) }
  | .ok drain_result =>
    match NodeAssigner.select strategy hash candidates workload with
    | none =>
      { success := false, drain := some drain_result,
        preempted_instance_id := preempted.id, replacement_instance_id := none,
        total_time_secs := 0, phase_times := FailoverPhaseTimes.default,
        assignment_strategy := strategy,
        error := some "No suitable replacement instance available" }
    | some replacement =>
      match spawn_replacement replacement port with
      | .error e =>
        { success := false, drain := some drain_result,
          preempted_instance_id := preempted.id,
          replacement_instance_id := some replacement.id, total_time_secs := 0,
          phase_times := FailoverPhaseTimes.default,
          assignment_strategy := strategy,
          error := some ("Failed to spawn replacement: " ++ e) }
      | .ok _ =>
        match wait_for_healthy healthPoll healthFuel with
        | .error _ =>
          -- `warn!`: logged only; fall through to the success record
          { success := true, drain := some drain_result,
            preempted_instance_id := preempted.id,
            replacement_instance_id := some replacement.id, total_time_secs := 0,
            phase_times := FailoverPhaseTimes.default,
            assignment_strategy := strategy, error := none }
        | .ok _ =>
          { success := true, drain := some drain_result,
            preempted_instance_id := preempted.id,
            replacement_instance_id := some replacement.id, total_time_secs := 0,
            phase_times := FailoverPhaseTimes.default,
            assignment_strategy := strategy, error := none }

/-- Shared with the C10 development: the drain entry point never errors and
never reports `Failed` or `Draining`. -/
theorem drain_always_ok (instance_id : String)
    (poll : Nat → Except String Bool) (fuel : Nat) :
    ∃ r, DrainManager.drain instance_id poll fuel = .ok r ∧
      (r.status = .Drained ∨ r.status = .TimedOut) := by
  have aux : ∀ (n k : Nat), ∃ s, waitForInflightAux poll n k = .ok s ∧
      (s = .Drained ∨ s = .TimedOut) := by
    intro n
    induction n with
    | zero => intro k; exact ⟨.TimedOut, rfl, Or.inr rfl⟩
    | succ m ih =>
      intro k
      unfold waitForInflightAux
      cases poll k with
      | ok b =>
        cases b with
        | true => exact ih (k + 1)
        | false => exact ⟨.Drained, rfl, Or.inl rfl⟩
      | error e => exact ⟨.Drained, rfl, Or.inl rfl⟩
  obtain ⟨s, hs, hcase⟩ := aux fuel 0
  refine ⟨{ status := s, drain_time_secs := 0, instance_id := instance_id }, ?_, hcase⟩
  unfold DrainManager.drain set_draining wait_for_inflight
  rw [hs]

/-- C9: when selection and spawn succeed but the replacement never passes its
health check inside the budget (`wait_for_healthy` returns the timeout error),
the failover record still carries `success = true` with no error string and
names the replacement — the timeout is surfaced only as a warning. -/
theorem C9_health_timeout_is_warning_not_failure (strategy : AssignmentStrategy)
    (hash : Nat) (notice : SpotInterruptionNotice) (preempted : Ec2Instance)
    (drainPoll : Nat → Except String Bool) (drainFuel : Nat)
    (candidates : List AssignmentCandidate) (workload : Workload) (port : Nat)
    (healthPoll : Nat → Except String Bool) (healthFuel : Nat)
    (replacement : Ec2Instance) (url : String)
    (hsel : NodeAssigner.select strategy hash candidates workload = some replacement)
    (hspawn : spawn_replacement replacement port = .ok url)
    (hhealth : wait_for_healthy healthPoll healthFuel = .error "timeout") :
    (handle_preemption strategy hash notice preempted drainPoll drainFuel
        candidates workload port healthPoll healthFuel).success = true ∧
    (handle_preemption strategy hash notice preempted drainPoll drainFuel
        candidates workload port healthPoll healthFuel).error = none ∧
    (handle_preemption strategy hash notice preempted drainPoll drainFuel
        candidates workload port healthPoll healthFuel).replacement_instance_id
      = some replacement.id := by
  obtain ⟨r, hr, _⟩ := drain_always_ok preempted.id drainPoll drainFuel
  unfold handle_preemption
  simp only [hr, hsel, hspawn, hhealth]
  exact ⟨trivial, trivial, trivial⟩

theorem C9_health_timeout_is_warning_not_failure_witness :
    (handle_preemption .EarliestNode 0
        { action := .Terminate, time := 0, seconds_until_action := 0 }
        demoTieInstB (fun _ => .ok false) 1
        [{ inst := demoInst, active_requests := 0, loaded_models := [] }]
        demoExactWorkload 8000 (fun _ => .ok false) 2).success = true ∧
    (handle_preemption .EarliestNode 0
        { action := .Terminate, time := 0, seconds_until_action := 0 }
        demoTieInstB (fun _ => .ok false) 1
        [{ inst := demoInst, active_requests := 0, loaded_models := [] }]
        demoExactWorkload 8000 (fun _ => .ok false) 2).error = none ∧
    (handle_preemption .EarliestNode 0
        { action := .Terminate, time := 0, seconds_until_action := 0 }
        demoTieInstB (fun _ => .ok false) 1
        [{ inst := demoInst, active_requests := 0, loaded_models := [] }]
        demoExactWorkload 8000 (fun _ => .ok false) 2).replacement_instance_id
      = some demoInst.id :=
  C9_health_timeout_is_warning_not_failure .EarliestNode 0
    { action := .Terminate, time := 0, seconds_until_action := 0 }
    demoTieInstB (fun _ => .ok false) 1
    [{ inst := demoInst, active_requests := 0, loaded_models := [] }]
    demoExactWorkload 8000 (fun _ => .ok false) 2 demoInst "http://10.0.0.1:8000"
    (by
      rw [NodeAssigner.select, show viableList
          [{ inst := demoInst, active_requests := 0, loaded_models := [] }]
          demoExactWorkload
        = [{ inst := demoInst, active_requests := 0, loaded_models := [] }] by
          norm_num [viableList, demoInst, demoExactWorkload,
            Ec2Instance.can_fit_memory, Ec2Instance.available_memory_mb]]
      rfl)
    rfl
    rfl


/-! ## Migration planner

From src/crates/applications/tessera-simulation-engine/src/migration.rs. The
`f64::INFINITY` infeasibility marker is modelled by `Option ℚ` (`none` = ∞);
the `pathfinding::kuhn_munkres::kuhn_munkres` call is modelled by that crate's
documented contract — it returns a complete row→column assignment of MAXIMUM
total weight (the crate's minimising variant, `kuhn_munkres_min`, is not what
the source calls); the tie choice among maximisers is unspecified by the crate,
and the concrete input below has a unique maximiser. The `HashMap<u64, u64>`
plans are modelled as association lists keyed by task id (one entry per task
index, so no key collides). -/

/-- `MigrationPlanner::migration_cost`: `None` (= ∞) if the task does not fit
the instance's free memory, else KV-cache size over bandwidth×125 MB/s. -/
def migration_cost (task : Sim.Task) (inst : Sim.Instance) : Option ℚ :=
  if ! task.can_fit_in_memory inst.available_memory_mb then none
  else some (task.kv_cache_size_mb / (inst.network_bandwidth_gbps * 125))

/-- `MigrationPlanner::build_cost_matrix`. -/
def build_cost_matrix (tasks : List Sim.Task) (instances : List Sim.Instance) :
    List (List (Option ℚ)) :=
  tasks.map (fun task => instances.map (fun inst => migration_cost task inst))

/-- The square-padded matrix: out-of-range entries are `f64::INFINITY`. -/
def squareCost (cm : List (List (Option ℚ))) (i j : Nat) : Option ℚ :=
  ((cm.getD i []).getD j none)

/-- Quantisation to integers for the Kuhn–Munkres call: infeasible cells become
the 10⁹ sentinel, finite costs are `(cost * 1000.0) as i64` (truncation toward
zero; all realised costs are nonnegative, so `Int.floor`). -/
def intCostOf (cm : List (List (Option ℚ))) (i j : Nat) : Int :=
  match squareCost cm i j with
  | none => 1000000000
  | some c => ⌊c * 1000⌋

/-- All ways to insert `x` into a list. -/
def insertPositions (x : Nat) : List Nat → List (List Nat)
  | [] => [[x]]
  | y :: ys => (x :: y :: ys) :: (insertPositions x ys).map (y :: ·)

/-- All permutations of a list (executable enumeration). -/
def perms : List Nat → List (List Nat)
  | [] => [[]]
  | x :: xs => (perms xs).flatMap (insertPositions x)

/-- Total weight of a row→column assignment `σ` (row `i` gets column `σ[i]`). -/
def assignTotal (w : Nat → Nat → Int) (σ : List Nat) : Int :=
  (σ.enum.map (fun p => w p.1 p.2)).sum

/-- First assignment of maximum total weight in the enumeration. -/
def pickMax (w : Nat → Nat → Int) : List (List Nat) → Option (List Nat) :=
  List.foldl
    (fun best σ =>
      match best with
      | none => some σ
      | some b => if assignTotal w b < assignTotal w σ then some σ else some b)
    none

/-- `pathfinding::kuhn_munkres::kuhn_munkres` on an n×n weight matrix, by its
documented contract: a complete assignment maximising the total weight. -/
def kuhn_munkres (n : Nat) (w : Nat → Nat → Int) : List Nat :=
  (pickMax w (perms (List.range n))).getD []

/-- Placeholder for in-range `getD` indexing (never selected in the uses below). -/
def dummyTask : Sim.Task := Sim.Task.new 0 0 0

def dummyInstance : Sim.Instance := Sim.Instance.new 0 .Spot 0 0

/-- The extraction loop of `plan_optimal_migration`: keep pairs that land on a
real task, a real instance, and a finite cost. -/
def extractPlan (tasks : List Sim.Task) (instances : List Sim.Instance)
    (cm : List (List (Option ℚ))) (assignment : List Nat) : List (Nat × Nat) :=
  assignment.enum.filterMap (fun p =>
    if p.1 < tasks.length ∧ p.2 < instances.length ∧
        (squareCost cm p.1 p.2).isSome = true then
      some ((tasks.getD p.1 dummyTask).id, (instances.getD p.2 dummyInstance).id)
    else none)

/-- `MigrationPlanner::plan_optimal_migration`. -/
def plan_optimal_migration (tasks : List Sim.Task) (instances : List Sim.Instance) :
    List (Nat × Nat) :=
  if tasks.isEmpty || instances.isEmpty then []
  else
    extractPlan tasks instances (build_cost_matrix tasks instances)
      (kuhn_munkres (max tasks.length instances.length)
        (intCostOf (build_cost_matrix tasks instances)))

/-- `instance_memory_used.get(&id).unwrap_or(&0.0)`. -/
def lookupUsed (used : List (Nat × ℚ)) (id : Nat) : ℚ :=
  ((used.find? (fun p => p.1 == id)).map Prod.snd).getD 0

/-- `*instance_memory_used.get_mut(&id).unwrap() += kv`. -/
def bumpUsed (used : List (Nat × ℚ)) (id : Nat) (kv : ℚ) : List (Nat × ℚ) :=
  used.map (fun p => if p.1 = id then (p.1, p.2 + kv) else p)

/-- The inner loop of `plan_naive_migration`: first instance whose tracked free
memory (`gpu_memory_gb * 1024.0 - used`, as written there) fits the task. -/
def firstFit (t : Sim.Task) (used : List (Nat × ℚ)) :
    List Sim.Instance → Option Nat
  | [] => none
  | i :: rest =>
    if t.can_fit_in_memory (i.gpu_memory_gb * 1024 - lookupUsed used i.id) then
      some i.id
    else firstFit t used rest

/-- The outer loop of `plan_naive_migration` over the displaced tasks. -/
def naiveGo (instances : List Sim.Instance) :
    List Sim.Task → List (Nat × ℚ) → List (Nat × Nat) → List (Nat × Nat)
  | [], _, acc => acc
  | t :: ts, used, acc =>
    match firstFit t used instances with
    | some iid =>
      naiveGo instances ts (bumpUsed used iid t.kv_cache_size_mb) (acc ++ [(t.id, iid)])
    | none => naiveGo instances ts used acc

/-- `MigrationPlanner::plan_naive_migration`: first-fit with cumulative memory
tracking. -/
def plan_naive_migration (tasks : List Sim.Task) (instances : List Sim.Instance) :
    List (Nat × Nat) :=
  if tasks.isEmpty || instances.isEmpty then []
  else naiveGo instances tasks (instances.map (fun i => (i.id, i.gpu_memory_used_mb))) []

/-- `MigrationPlanner::calculate_total_cost`: sum the finite migration costs of
an assignment's pairs, skipping pairs whose task or instance is unknown. -/
def calculate_total_cost (tasks : List Sim.Task) (instances : List Sim.Instance)
    (assignment : List (Nat × Nat)) : ℚ :=
  assignment.foldl
    (fun total p =>
      match tasks.find? (fun t => t.id == p.1),
          instances.find? (fun i => i.id == p.2) with
      | some t, some i =>
        match migration_cost t i with
        | some c => total + c
        | none => total
      | _, _ => total) 0

/-- A 5 h task: 1000 MB KV cache. -/
def migTaskA : Sim.Task := Sim.Task.new 1 0 5

/-- A 10 h task: 2000 MB KV cache. -/
def migTaskB : Sim.Task := Sim.Task.new 2 0 10

/-- A 24 GB, 10 Gb/s instance. -/
def migInstFast : Sim.Instance := Sim.Instance.new 100 .Spot (3/10) 0

/-- A 24 GB instance on a 1 Gb/s link. -/
def migInstSlow : Sim.Instance :=
  { Sim.Instance.new 101 .Spot (3/10) 0 with network_bandwidth_gbps := 1 }

theorem migCost_A_fast : migration_cost migTaskA migInstFast = some (4/5) := by
  norm_num [migration_cost, Sim.Task.can_fit_in_memory,
    Sim.Instance.available_memory_mb, migTaskA, migInstFast, Sim.Task.new,
    Sim.Instance.new]

theorem migCost_A_slow : migration_cost migTaskA migInstSlow = some 8 := by
  norm_num [migration_cost, Sim.Task.can_fit_in_memory,
    Sim.Instance.available_memory_mb, migTaskA, migInstSlow, Sim.Task.new,
    Sim.Instance.new]

theorem migCost_B_fast : migration_cost migTaskB migInstFast = some (8/5) := by
  norm_num [migration_cost, Sim.Task.can_fit_in_memory,
    Sim.Instance.available_memory_mb, migTaskB, migInstFast, Sim.Task.new,
    Sim.Instance.new]

theorem migCost_B_slow : migration_cost migTaskB migInstSlow = some 16 := by
  norm_num [migration_cost, Sim.Task.can_fit_in_memory,
    Sim.Instance.available_memory_mb, migTaskB, migInstSlow, Sim.Task.new,
    Sim.Instance.new]

theorem mig_cost_matrix :
    build_cost_matrix [migTaskA, migTaskB] [migInstFast, migInstSlow]
      = [[some (4/5), some 8], [some (8/5), some 16]] := by
  simp [build_cost_matrix, migCost_A_fast, migCost_A_slow, migCost_B_fast,
    migCost_B_slow]

theorem mig_intCost_00 :
    intCostOf [[some ((4:ℚ)/5), some 8], [some (8/5), some 16]] 0 0 = 800 := by
  norm_num [intCostOf, squareCost]

theorem mig_intCost_01 :
    intCostOf [[some ((4:ℚ)/5), some 8], [some (8/5), some 16]] 0 1 = 8000 := by
  norm_num [intCostOf, squareCost]

theorem mig_intCost_10 :
    intCostOf [[some ((4:ℚ)/5), some 8], [some (8/5), some 16]] 1 0 = 1600 := by
  norm_num [intCostOf, squareCost]

theorem mig_intCost_11 :
    intCostOf [[some ((4:ℚ)/5), some 8], [some (8/5), some 16]] 1 1 = 16000 := by
  norm_num [intCostOf, squareCost]

theorem mig_km :
    kuhn_munkres 2 (intCostOf [[some ((4:ℚ)/5), some 8], [some (8/5), some 16]])
      = [0, 1] := by
  have h1 : assignTotal
      (intCostOf [[some ((4:ℚ)/5), some 8], [some (8/5), some 16]]) [0, 1]
      = 16800 := by
    simp [assignTotal, List.enum, mig_intCost_00, mig_intCost_11]
  have h2 : assignTotal
      (intCostOf [[some ((4:ℚ)/5), some 8], [some (8/5), some 16]]) [1, 0]
      = 9600 := by
    simp [assignTotal, List.enum, mig_intCost_01, mig_intCost_10]
  have hperms : perms (List.range 2) = [[0, 1], [1, 0]] := by rfl
  rw [kuhn_munkres, hperms]
  simp [pickMax, h1, h2]

/-- C5 (code bug): the "optimal" planner calls the MAXIMISING `kuhn_munkres`
(the crate's `kuhn_munkres_min` would minimise), contradicting its own doc
comment "finds the minimum-cost perfect matching". On two all-feasible tasks
and two instances it picks the dearest matching (16.8 s) while first-fit stacks
both tasks on the fast instance for 2.4 s — refuting the claimed
`optimal ≤ first-fit` even though every task has a finite cost on some target. -/
theorem C5_optimal_planner_exceeds_first_fit :
    plan_optimal_migration [migTaskA, migTaskB] [migInstFast, migInstSlow]
        = [(1, 100), (2, 101)] ∧
    plan_naive_migration [migTaskA, migTaskB] [migInstFast, migInstSlow]
        = [(1, 100), (2, 100)] ∧
    calculate_total_cost [migTaskA, migTaskB] [migInstFast, migInstSlow]
        [(1, 100), (2, 101)] = 84/5 ∧
    calculate_total_cost [migTaskA, migTaskB] [migInstFast, migInstSlow]
        [(1, 100), (2, 100)] = 12/5 ∧
    (migration_cost migTaskA migInstFast).isSome = true ∧
    (migration_cost migTaskA migInstSlow).isSome = true ∧
    (migration_cost migTaskB migInstFast).isSome = true ∧
    (migration_cost migTaskB migInstSlow).isSome = true ∧
    ¬ ((84 : ℚ)/5 ≤ 12/5) := by
  refine ⟨?_, ?_, ?_, ?_, ?_, ?_, ?_, ?_, by norm_num⟩
  · rw [plan_optimal_migration, mig_cost_matrix,
      show max ([migTaskA, migTaskB].length) ([migInstFast, migInstSlow].length)
        = 2 from rfl,
      mig_km]
    decide
  · rw [plan_naive_migration,
      show List.map (fun i => (i.id, i.gpu_memory_used_mb))
          [migInstFast, migInstSlow] = [(100, (0:ℚ)), (101, 0)] from by
        norm_num [migInstFast, migInstSlow, Sim.Instance.new]]
    have hf1 : firstFit migTaskA [(100, (0:ℚ)), (101, 0)]
        [migInstFast, migInstSlow] = some 100 := by
      norm_num [firstFit, lookupUsed, Sim.Task.can_fit_in_memory, migTaskA,
        migInstFast, Sim.Task.new, Sim.Instance.new]
    have hbump : bumpUsed [(100, (0:ℚ)), (101, 0)] 100 migTaskA.kv_cache_size_mb
        = [(100, 1000), (101, 0)] := by
      norm_num [bumpUsed, migTaskA, Sim.Task.new]
    have hf2 : firstFit migTaskB [(100, (1000:ℚ)), (101, 0)]
        [migInstFast, migInstSlow] = some 100 := by
      norm_num [firstFit, lookupUsed, Sim.Task.can_fit_in_memory, migTaskB,
        migInstFast, Sim.Task.new, Sim.Instance.new]
    simp only [List.isEmpty_cons, Bool.false_or, Bool.false_eq_true, if_neg,
      not_false_eq_true, naiveGo, hf1, hbump, hf2]
    norm_num [migTaskA, migTaskB, Sim.Task.new]
  · have hfA : List.find? (fun t => t.id == 1) [migTaskA, migTaskB]
        = some migTaskA := rfl
    have hfB : List.find? (fun t => t.id == 2) [migTaskA, migTaskB]
        = some migTaskB := rfl
    have hiF : List.find? (fun i => i.id == 100) [migInstFast, migInstSlow]
        = some migInstFast := rfl
    have hiS : List.find? (fun i => i.id == 101) [migInstFast, migInstSlow]
        = some migInstSlow := rfl
    simp only [calculate_total_cost, List.foldl, hfA, hfB, hiF, hiS,
      migCost_A_fast, migCost_B_slow]
    norm_num
  · have hfA : List.find? (fun t => t.id == 1) [migTaskA, migTaskB]
        = some migTaskA := rfl
    have hfB : List.find? (fun t => t.id == 2) [migTaskA, migTaskB]
        = some migTaskB := rfl
    have hiF : List.find? (fun i => i.id == 100) [migInstFast, migInstSlow]
        = some migInstFast := rfl
    simp only [calculate_total_cost, List.foldl, hfA, hfB, hiF,
      migCost_A_fast, migCost_B_fast]
    norm_num
  · rw [migCost_A_fast]; rfl
  · rw [migCost_A_slow]; rfl
  · rw [migCost_B_fast]; rfl
  · rw [migCost_B_slow]; rfl


/-! ## Simulator event queue

From src/crates/applications/tessera-simulation-engine/src/simulator.rs. The
event queue is `std::collections::BinaryHeap<TimedEvent>`; `TimedEvent`'s `Ord`
compares ONLY the times, reversed (`other.time.partial_cmp(&self.time)`), so
the max-heap on that order is a min-heap on time and equal-time events compare
equal. The heap is embedded as the standard binary heap in an array (here a
`List` indexed with a default), with `push` = append + sift-up and `pop` =
return the root, move the last element to the root and sift it down — the
std-library algorithm. (std's pop uses the sift-down-to-bottom variant, which
restores the same heap shape up to the arrangement of equal-time events;
nothing below depends on the arrangement of ties.) -/

/-- `Event` from tessera-simulation-engine types.rs. -/
inductive Event where
  | TaskArrival (task_id : Nat) (time : ℚ)
  | TaskCompletion (task_id : Nat) (time : ℚ)
  | InstancePreemption (instance_id : Nat) (time : ℚ)
  | InstanceLaunch (instance_id : Nat) (time : ℚ) (instance_type : Sim.InstanceType)
deriving DecidableEq, Repr

/-- `TimedEvent` from simulator.rs. -/
structure TimedEvent where
  time : ℚ
  event : Event
deriving DecidableEq, Repr

/-- Default element backing out-of-range reads (all reads are guarded). -/
def teDefault : TimedEvent := { time := 0, event := .TaskArrival 0 0 }

/-- Time at index `i` of the heap array. -/
def timeAt (l : List TimedEvent) (i : Nat) : ℚ := (l.getD i teDefault).time

/-- `Vec`-style swap of two in-range positions. -/
def swapL (l : List TimedEvent) (i j : Nat) : List TimedEvent :=
  (l.set i (l.getD j teDefault)).set j (l.getD i teDefault)

/-- Sift the element at `i` down until both children are no earlier: the
std `sift_down` on the reversed-time order (the smaller-time child is the
"greater" one and rises). -/
def siftDown (l : List TimedEvent) (i : Nat) : List TimedEvent :=
  if h1 : 2*i+1 < l.length then
    if h2 : 2*i+2 < l.length ∧ timeAt l (2*i+2) < timeAt l (2*i+1) then
      if timeAt l (2*i+2) < timeAt l i then siftDown (swapL l i (2*i+2)) (2*i+2) else l
    else
      if timeAt l (2*i+1) < timeAt l i then siftDown (swapL l i (2*i+1)) (2*i+1) else l
  else l
termination_by l.length - i
decreasing_by
  · simp only [swapL, List.length_set]; omega
  · simp only [swapL, List.length_set]; omega

/-- Sift the element at `i` up while it is strictly earlier than its parent:
the std `sift_up` (equal keys do not swap). -/
def siftUp (l : List TimedEvent) (i : Nat) : List TimedEvent :=
  if _h : i = 0 then l
  else if timeAt l i < timeAt l ((i-1)/2) then siftUp (swapL l i ((i-1)/2)) ((i-1)/2)
  else l
termination_by i
decreasing_by omega

/-- `BinaryHeap::push`: append, then sift the new element up. -/
def heapPush (l : List TimedEvent) (e : TimedEvent) : List TimedEvent :=
  siftUp (l ++ [e]) l.length

/-- `BinaryHeap::pop`: take the root, move the last element into its place and
sift it down. -/
def heapPop (l : List TimedEvent) : Option TimedEvent × List TimedEvent :=
  match l with
  | [] => (none, [])
  | [x] => (some x, [])
  | x :: y :: rest =>
    let full := x :: y :: rest
    (some x,
      siftDown ((full.dropLast).set 0 (full.getD (full.length - 1) teDefault)) 0)

/-- Successive pops until the queue is empty (`Simulator::run`'s
`while let Some(..) = self.event_queue.pop()` loop), fuelled by the size. -/
def popListAux : Nat → List TimedEvent → List TimedEvent
  | 0, _ => []
  | fuel + 1, l =>
    match heapPop l with
    | (none, _) => []
    | (some e, l') => e :: popListAux fuel l'

def popList (l : List TimedEvent) : List TimedEvent := popListAux l.length l

/-- The binary-heap shape invariant on the reversed-time order: every parent is
no later than its children. -/
def heapInv (l : List TimedEvent) : Prop :=
  ∀ i j : Nat, j < l.length → (j = 2*i+1 ∨ j = 2*i+2) → timeAt l i ≤ timeAt l j

theorem getD_set_self {α : Type} (d : α) :
    ∀ (l : List α) (i : Nat) (v : α), i < l.length → (l.set i v).getD i d = v := by
  intro l
  induction l with
  | nil => intro i v h; simp at h
  | cons a as ih =>
    intro i v h
    cases i with
    | zero => rfl
    | succ n =>
      simp only [List.set, List.getD, List.getElem?_cons_succ]
      have := ih n v (by simpa using h)
      simpa [List.getD] using this

theorem getD_set_ne {α : Type} (d : α) :
    ∀ (l : List α) (i j : Nat) (v : α), i ≠ j → (l.set i v).getD j d = l.getD j d := by
  intro l
  induction l with
  | nil => intro i j v _; simp [List.set]
  | cons a as ih =>
    intro i j v hne
    cases i with
    | zero =>
      cases j with
      | zero => exact absurd rfl hne
      | succ m => rfl
    | succ n =>
      cases j with
      | zero => rfl
      | succ m =>
        simp only [List.set, List.getD, List.getElem?_cons_succ]
        have := ih n m v (by omega)
        simpa [List.getD] using this

theorem mem_of_mem_set {α : Type} :
    ∀ (l : List α) (i : Nat) (v x : α), x ∈ l.set i v → x = v ∨ x ∈ l := by
  intro l
  induction l with
  | nil => intro i v x h; simp [List.set] at h
  | cons a as ih =>
    intro i v x h
    cases i with
    | zero =>
      rcases List.mem_cons.mp h with h1 | h1
      · exact Or.inl h1
      · exact Or.inr (List.mem_cons_of_mem _ h1)
    | succ n =>
      rcases List.mem_cons.mp h with h1 | h1
      · exact Or.inr (h1 ▸ List.mem_cons_self _ _)
      · rcases ih n v x h1 with h2 | h2
        · exact Or.inl h2
        · exact Or.inr (List.mem_cons_of_mem _ h2)

theorem getD_mem {α : Type} (d : α) :
    ∀ (l : List α) (i : Nat), i < l.length → l.getD i d ∈ l := by
  intro l
  induction l with
  | nil => intro i h; simp at h
  | cons a as ih =>
    intro i h
    cases i with
    | zero => exact List.mem_cons_self _ _
    | succ n =>
      have := ih n (by simpa using h)
      simpa [List.getD] using List.mem_cons_of_mem a this

theorem getD_append_left {α : Type} (d : α) :
    ∀ (l l' : List α) (i : Nat), i < l.length → (l ++ l').getD i d = l.getD i d := by
  intro l
  induction l with
  | nil => intro l' i h; simp at h
  | cons a as ih =>
    intro l' i h
    cases i with
    | zero => rfl
    | succ n =>
      simp only [List.cons_append, List.getD, List.getElem?_cons_succ]
      have := ih l' n (by simpa using h)
      simpa [List.getD] using this

theorem getD_dropLast {α : Type} (d : α) :
    ∀ (l : List α) (i : Nat), i + 1 < l.length → l.dropLast.getD i d = l.getD i d := by
  intro l
  induction l with
  | nil => intro i h; simp at h
  | cons a as ih =>
    intro i h
    cases as with
    | nil => simp at h
    | cons b bs =>
      cases i with
      | zero => rfl
      | succ n =>
        simp only [List.dropLast, List.getD, List.getElem?_cons_succ]
        have := ih n (by simpa using h)
        simpa [List.getD, List.dropLast] using this

theorem length_swapL (l : List TimedEvent) (i j : Nat) :
    (swapL l i j).length = l.length := by
  simp [swapL]

theorem timeAt_swapL_fst (l : List TimedEvent) (i j : Nat)
    (hi : i < l.length) (hj : j < l.length) :
    timeAt (swapL l i j) i = timeAt l j := by
  unfold timeAt swapL
  by_cases hij : i = j
  · subst hij
    rw [getD_set_self _ _ _ _ (by simpa using hi)]
  · rw [getD_set_ne _ _ _ _ _ (fun h => hij h.symm),
      getD_set_self _ _ _ _ hi]

theorem timeAt_swapL_snd (l : List TimedEvent) (i j : Nat)
    (_hi : i < l.length) (hj : j < l.length) :
    timeAt (swapL l i j) j = timeAt l i := by
  unfold timeAt swapL
  rw [getD_set_self _ _ _ _ (by simpa using hj)]

theorem timeAt_swapL_other (l : List TimedEvent) (i j k : Nat)
    (hki : k ≠ i) (hkj : k ≠ j) :
    timeAt (swapL l i j) k = timeAt l k := by
  unfold timeAt swapL
  rw [getD_set_ne _ _ _ _ _ (fun h => hkj h.symm),
    getD_set_ne _ _ _ _ _ (fun h => hki h.symm)]

theorem mem_swapL (l : List TimedEvent) (i j : Nat) (x : TimedEvent)
    (hi : i < l.length) (hj : j < l.length) (hx : x ∈ swapL l i j) : x ∈ l := by
  unfold swapL at hx
  rcases mem_of_mem_set _ _ _ _ hx with h1 | h1
  · exact h1 ▸ getD_mem _ _ _ hi
  · rcases mem_of_mem_set _ _ _ _ h1 with h2 | h2
    · exact h2 ▸ getD_mem _ _ _ hj
    · exact h2


/-- "Heap except possibly at `k`": every parent–child edge away from `k` is
ordered, and `k`'s parent (when `k` has one) is already no later than `k`'s
children. `sift_down` restores the full invariant from this state. -/
def nearHeapDown (l : List TimedEvent) (k : Nat) : Prop :=
  (∀ i j, j < l.length → (j = 2*i+1 ∨ j = 2*i+2) → i ≠ k → timeAt l i ≤ timeAt l j) ∧
  (∀ j, j < l.length → (j = 2*k+1 ∨ j = 2*k+2) → 0 < k →
    timeAt l ((k-1)/2) ≤ timeAt l j)

theorem heapInv_of_child_bound (l : List TimedEvent) (k : Nat)
    (h : nearHeapDown l k)
    (hk : ∀ j, j < l.length → (j = 2*k+1 ∨ j = 2*k+2) → timeAt l k ≤ timeAt l j) :
    heapInv l := by
  intro i j hj hedge
  by_cases hik : i = k
  · exact hik ▸ hk j hj (hik ▸ hedge)
  · exact h.1 i j hj hedge hik

theorem nearHeapDown_swap (l : List TimedEvent) (k c : Nat)
    (h : nearHeapDown l k) (hclen : c < l.length)
    (hcedge : c = 2*k+1 ∨ c = 2*k+2)
    (hcmin : ∀ s, s < l.length → (s = 2*k+1 ∨ s = 2*k+2) → timeAt l c ≤ timeAt l s)
    (hswap : timeAt l c < timeAt l k) :
    nearHeapDown (swapL l k c) c := by
  have hklen : k < l.length := by omega
  have hkc : k ≠ c := by omega
  have hfst : timeAt (swapL l k c) k = timeAt l c := timeAt_swapL_fst l k c hklen hclen
  have hsnd : timeAt (swapL l k c) c = timeAt l k := timeAt_swapL_snd l k c hklen hclen
  constructor
  · intro i j hj hedge hic
    rw [length_swapL] at hj
    by_cases hik : i = k
    · subst hik
      by_cases hjc : j = c
      · subst hjc
        rw [hfst, hsnd]
        exact hswap.le
      · have hjk : j ≠ i := by omega
        rw [hfst, timeAt_swapL_other l i c j hjk hjc]
        exact hcmin j hj hedge
    · have hia : timeAt (swapL l k c) i = timeAt l i :=
        timeAt_swapL_other l k c i hik hic
      by_cases hjk : j = k
      · subst hjk
        have hipar : i = (j-1)/2 := by omega
        have hjpos : 0 < j := by omega
        rw [hia, hfst]
        exact hipar ▸ h.2 c hclen hcedge hjpos
      · by_cases hjc : j = c
        · exfalso
          apply hik
          omega
        · rw [hia, timeAt_swapL_other l k c j hjk hjc]
          exact h.1 i j hj hedge hik
  · intro j hj hedge _
    rw [length_swapL] at hj
    have hcpar : (c-1)/2 = k := by omega
    have hjk : j ≠ k := by omega
    have hjc : j ≠ c := by omega
    rw [hcpar, hfst, timeAt_swapL_other l k c j hjk hjc]
    exact h.1 c j hj hedge (Ne.symm hkc)

theorem siftDown_heapInv (l : List TimedEvent) (k : Nat)
    (h : nearHeapDown l k) : heapInv (siftDown l k) := by
  rw [siftDown]
  by_cases h1 : 2*k+1 < l.length
  · rw [dif_pos h1]
    by_cases h2 : 2*k+2 < l.length ∧ timeAt l (2*k+2) < timeAt l (2*k+1)
    · rw [dif_pos h2]
      by_cases h3 : timeAt l (2*k+2) < timeAt l k
      · rw [if_pos h3]
        refine siftDown_heapInv _ _ (nearHeapDown_swap l k (2*k+2) h h2.1
          (Or.inr rfl) ?_ h3)
        intro s hs hedge
        rcases hedge with hs1 | hs2
        · exact hs1 ▸ h2.2.le
        · exact hs2 ▸ le_refl _
      · rw [if_neg h3]
        refine heapInv_of_child_bound l k h ?_
        intro j hj hedge
        rcases hedge with hj1 | hj2
        · subst hj1; exact le_trans (not_lt.mp h3) h2.2.le
        · subst hj2; exact not_lt.mp h3
    · rw [dif_neg h2]
      by_cases h3 : timeAt l (2*k+1) < timeAt l k
      · rw [if_pos h3]
        refine siftDown_heapInv _ _ (nearHeapDown_swap l k (2*k+1) h h1
          (Or.inl rfl) ?_ h3)
        intro s hs hedge
        rcases hedge with hs1 | hs2
        · exact hs1 ▸ le_refl _
        · subst hs2
          have : ¬ timeAt l (2*k+2) < timeAt l (2*k+1) := fun hc => h2 ⟨hs, hc⟩
          exact not_lt.mp this
      · rw [if_neg h3]
        refine heapInv_of_child_bound l k h ?_
        intro j hj hedge
        rcases hedge with hj1 | hj2
        · subst hj1; exact not_lt.mp h3
        · subst hj2
          have hno : ¬ timeAt l (2*k+2) < timeAt l (2*k+1) := fun hc => h2 ⟨hj, hc⟩
          exact le_trans (not_lt.mp h3) (not_lt.mp hno)
  · rw [dif_neg h1]
    refine heapInv_of_child_bound l k h ?_
    intro j hj hedge
    omega
termination_by l.length - k
decreasing_by
  · simp only [length_swapL]; omega
  · simp only [length_swapL]; omega

theorem length_siftDown (l : List TimedEvent) (k : Nat) :
    (siftDown l k).length = l.length := by
  rw [siftDown]
  by_cases h1 : 2*k+1 < l.length
  · rw [dif_pos h1]
    by_cases h2 : 2*k+2 < l.length ∧ timeAt l (2*k+2) < timeAt l (2*k+1)
    · rw [dif_pos h2]
      by_cases h3 : timeAt l (2*k+2) < timeAt l k
      · rw [if_pos h3, length_siftDown (swapL l k (2*k+2)) (2*k+2), length_swapL]
      · rw [if_neg h3]
    · rw [dif_neg h2]
      by_cases h3 : timeAt l (2*k+1) < timeAt l k
      · rw [if_pos h3, length_siftDown (swapL l k (2*k+1)) (2*k+1), length_swapL]
      · rw [if_neg h3]
  · rw [dif_neg h1]
termination_by l.length - k
decreasing_by
  · simp only [length_swapL]; omega
  · simp only [length_swapL]; omega

theorem mem_siftDown (l : List TimedEvent) (k : Nat) (x : TimedEvent)
    (hx : x ∈ siftDown l k) : x ∈ l := by
  rw [siftDown] at hx
  by_cases h1 : 2*k+1 < l.length
  · rw [dif_pos h1] at hx
    by_cases h2 : 2*k+2 < l.length ∧ timeAt l (2*k+2) < timeAt l (2*k+1)
    · rw [dif_pos h2] at hx
      by_cases h3 : timeAt l (2*k+2) < timeAt l k
      · rw [if_pos h3] at hx
        exact mem_swapL l k (2*k+2) x (by omega) h2.1
          (mem_siftDown (swapL l k (2*k+2)) (2*k+2) x hx)
      · rwa [if_neg h3] at hx
    · rw [dif_neg h2] at hx
      by_cases h3 : timeAt l (2*k+1) < timeAt l k
      · rw [if_pos h3] at hx
        exact mem_swapL l k (2*k+1) x (by omega) h1
          (mem_siftDown (swapL l k (2*k+1)) (2*k+1) x hx)
      · rwa [if_neg h3] at hx
  · rwa [dif_neg h1] at hx
termination_by l.length - k
decreasing_by
  · simp only [length_swapL]; omega
  · simp only [length_swapL]; omega

theorem root_min (l : List TimedEvent) (h : heapInv l) :
    ∀ j, j < l.length → timeAt l 0 ≤ timeAt l j := by
  intro j
  induction j using Nat.strong_induction_on with
  | _ j ih =>
    intro hj
    match j with
    | 0 => exact le_refl _
    | Nat.succ m =>
      have hedge : (m+1) = 2*(m/2)+1 ∨ (m+1) = 2*(m/2)+2 := by omega
      calc timeAt l 0 ≤ timeAt l (m/2) := ih (m/2) (by omega) (by omega)
        _ ≤ timeAt l (m+1) := h (m/2) (m+1) hj hedge

theorem mem_timeAt (l : List TimedEvent) (u : TimedEvent) (hu : u ∈ l) :
    ∃ i, i < l.length ∧ timeAt l i = u.time := by
  induction l with
  | nil => simp at hu
  | cons a as ih =>
    rcases List.mem_cons.mp hu with h1 | h1
    · exact ⟨0, by simp, by rw [h1]; rfl⟩
    · obtain ⟨i, hi, ht⟩ := ih h1
      exact ⟨i+1, by simpa using hi, ht⟩


theorem heapPop_spec (l : List TimedEvent) (h : heapInv l) (x : TimedEvent)
    (l' : List TimedEvent) (hp : heapPop l = (some x, l')) :
    heapInv l' ∧ (∀ u ∈ l', x.time ≤ u.time) ∧ l'.length = l.length - 1 := by
  match l with
  | [] => simp [heapPop] at hp
  | [a] =>
    simp only [heapPop, Prod.mk.injEq, Option.some.injEq] at hp
    obtain ⟨hxa, hl'⟩ := hp
    subst hl'
    exact ⟨fun i j hj _ => by simp at hj, fun u hu => by simp at hu, rfl⟩
  | a :: b :: rest =>
    have hlen : (a :: b :: rest).length = rest.length + 2 := by simp
    simp only [heapPop, Prod.mk.injEq, Option.some.injEq] at hp
    obtain ⟨hxa, hl'⟩ := hp
    set full := a :: b :: rest with hfull
    set z := full.getD (full.length - 1) teDefault with hz
    set bArr := (full.dropLast).set 0 z with hb
    have hblen : bArr.length = full.length - 1 := by
      rw [hb, List.length_set, List.length_dropLast]
    have hfullpos : 2 ≤ full.length := by rw [hfull]; simp
    have hbpos : 1 ≤ bArr.length := by omega
    have hnear : nearHeapDown bArr 0 := by
      constructor
      · intro i j hj hedge hik
        have hi1 : 1 ≤ i := by omega
        have hij : i < j := by omega
        have hjb : j < bArr.length := hj
        have htb : ∀ m, 1 ≤ m → m < bArr.length → timeAt bArr m = timeAt full m := by
          intro m hm1 hmb
          rw [hb]
          unfold timeAt
          rw [getD_set_ne _ _ _ _ _ (by omega)]
          unfold timeAt at *
          rw [getD_dropLast]
          omega
        rw [htb i hi1 (by omega), htb j (by omega) hjb]
        exact h i j (by omega) hedge
      · intro j _ _ hk
        omega
    have hinv' : heapInv (siftDown bArr 0) := siftDown_heapInv bArr 0 hnear
    have hmem' : ∀ u ∈ siftDown bArr 0, u ∈ full := by
      intro u hu
      have hub : u ∈ bArr := mem_siftDown bArr 0 u hu
      rw [hb] at hub
      rcases mem_of_mem_set _ _ _ _ hub with h1 | h1
      · rw [h1, hz]
        exact getD_mem _ _ _ (by omega)
      · exact (List.dropLast_sublist full).subset h1
    subst hl'
    refine ⟨hinv', ?_, by rw [length_siftDown]; omega⟩
    intro u hu
    obtain ⟨i, hi, ht⟩ := mem_timeAt full u (hmem' u hu)
    have : timeAt full 0 ≤ timeAt full i := root_min full h i hi
    rw [ht] at this
    have hx0 : x.time = timeAt full 0 := by rw [← hxa]; rfl
    rw [hx0]
    exact this

theorem popListAux_mem :
    ∀ (fuel : Nat) (l : List TimedEvent) (e : TimedEvent),
      e ∈ popListAux fuel l → e ∈ l := by
  intro fuel
  induction fuel with
  | zero => intro l e he; simp [popListAux] at he
  | succ n ih =>
    intro l e he
    match l with
    | [] => simp [popListAux, heapPop] at he
    | [a] =>
      simp only [popListAux, heapPop] at he
      rcases List.mem_cons.mp he with h1 | h1
      · exact h1 ▸ List.mem_cons_self _ _
      · exact absurd (ih [] e h1) (by simp)
    | a :: b :: rest =>
      simp only [popListAux, heapPop] at he
      rcases List.mem_cons.mp he with h1 | h1
      · exact h1 ▸ List.mem_cons_self _ _
      · have := ih _ e h1
        have hfull : e ∈ (a :: b :: rest) := by
          have hub : e ∈ ((a :: b :: rest).dropLast).set 0
              ((a :: b :: rest).getD ((a :: b :: rest).length - 1) teDefault) :=
            mem_siftDown _ 0 e this
          rcases mem_of_mem_set _ _ _ _ hub with h2 | h2
          · rw [h2]
            exact getD_mem _ _ _ (by simp)
          · exact (List.dropLast_sublist _).subset h2
        exact hfull

theorem popListAux_sorted (fuel : Nat) :
    ∀ (l : List TimedEvent), heapInv l →
      List.Sorted (· ≤ ·) ((popListAux fuel l).map (·.time)) := by
  induction fuel with
  | zero => intro l _; simp [popListAux]
  | succ n ih =>
    intro l h
    match hl : l with
    | [] => simp [popListAux, heapPop]
    | [a] =>
      have hnil : popListAux n [] = [] := by
        cases n <;> simp [popListAux, heapPop]
      simp [popListAux, heapPop, hnil]
    | a :: b :: rest =>
      have hpop : heapPop (a :: b :: rest) =
          (some a, siftDown (((a :: b :: rest).dropLast).set 0
            ((a :: b :: rest).getD ((a :: b :: rest).length - 1) teDefault)) 0) := rfl
      obtain ⟨hinv', hbound, _⟩ := heapPop_spec (a :: b :: rest) h a _ hpop
      simp only [popListAux, hpop, List.map_cons]
      rw [List.sorted_cons]
      refine ⟨?_, ih _ hinv'⟩
      intro t ht
      obtain ⟨u, hu, hut⟩ := List.mem_map.mp ht
      have := hbound u (popListAux_mem n _ u hu)
      rw [hut] at this
      exact this

theorem heapInv_nil : heapInv [] := by
  intro i j hj _
  simp at hj

theorem nearHeapUp_append (l : List TimedEvent) (e : TimedEvent) (h : heapInv l) :
    (∀ p j, j < (l ++ [e]).length → (j = 2*p+1 ∨ j = 2*p+2) → j ≠ l.length →
      timeAt (l ++ [e]) p ≤ timeAt (l ++ [e]) j) ∧
    (∀ j, j < (l ++ [e]).length → (j = 2*l.length+1 ∨ j = 2*l.length+2) →
      timeAt (l ++ [e]) ((l.length-1)/2) ≤ timeAt (l ++ [e]) j) := by
  constructor
  · intro p j hj hedge hjn
    rw [List.length_append, List.length_cons, List.length_nil] at hj
    have hjl : j < l.length := by omega
    have hpl : p < l.length := by omega
    unfold timeAt
    rw [getD_append_left _ _ _ _ hjl, getD_append_left _ _ _ _ hpl]
    exact h p j hjl hedge
  · intro j hj hedge
    rw [List.length_append, List.length_cons, List.length_nil] at hj
    omega

/-- "Heap except possibly on the edge into `i`": every edge not ending at `i`
is ordered, and `i`'s parent is already no later than `i`'s children.
`sift_up` restores the full invariant from this state. -/
def nearHeapUp (l : List TimedEvent) (i : Nat) : Prop :=
  (∀ p j, j < l.length → (j = 2*p+1 ∨ j = 2*p+2) → j ≠ i →
    timeAt l p ≤ timeAt l j) ∧
  (∀ j, j < l.length → (j = 2*i+1 ∨ j = 2*i+2) → timeAt l ((i-1)/2) ≤ timeAt l j)

theorem nearHeapUp_swap (l : List TimedEvent) (i : Nat) (h : nearHeapUp l i)
    (hi0 : i ≠ 0) (hilen : i < l.length)
    (hswap : timeAt l i < timeAt l ((i-1)/2)) :
    nearHeapUp (swapL l i ((i-1)/2)) ((i-1)/2) := by
  set p := (i-1)/2 with hp
  have hpi : p < i := by omega
  have hplen : p < l.length := by omega
  have hiedge : i = 2*p+1 ∨ i = 2*p+2 := by omega
  have hfst : timeAt (swapL l i p) i = timeAt l p := timeAt_swapL_fst l i p hilen hplen
  have hsnd : timeAt (swapL l i p) p = timeAt l i := timeAt_swapL_snd l i p hilen hplen
  constructor
  · intro a b hb hedge hbp
    rw [length_swapL] at hb
    by_cases hap : a = p
    · subst hap
      by_cases hbi : b = i
      · subst hbi
        rw [hsnd, hfst]
        exact hswap.le
      · rw [hsnd, timeAt_swapL_other l i p b hbi hbp]
        calc timeAt l i ≤ timeAt l p := hswap.le
          _ ≤ timeAt l b := h.1 p b hb hedge hbi
    · by_cases hai : a = i
      · subst hai
        have hb1 : b ≠ a := by omega
        rw [hfst, timeAt_swapL_other l a p b hb1 hbp]
        exact h.2 b hb hedge
      · have hbip : b ≠ i := by
          intro hbi
          subst hbi
          apply hap
          omega
        rw [timeAt_swapL_other l i p a hai hap,
          timeAt_swapL_other l i p b hbip hbp]
        exact h.1 a b hb hedge hbip
  · intro b hb hedge
    rw [length_swapL] at hb
    by_cases hp0 : p = 0
    · have hq : (p-1)/2 = p := by omega
      rw [hq]
      by_cases hbi : b = i
      · subst hbi
        rw [hsnd, hfst]
        exact hswap.le
      · have hbp : b ≠ p := by omega
        rw [hsnd, timeAt_swapL_other l i p b hbi hbp]
        calc timeAt l i ≤ timeAt l p := hswap.le
          _ ≤ timeAt l b := h.1 p b hb hedge hbi
    · set q := (p-1)/2 with hqdef
      have hqp : q < p := by omega
      have hqi : q ≠ i := by omega
      have hqne : q ≠ p := by omega
      have hpedge : p = 2*q+1 ∨ p = 2*q+2 := by omega
      rw [timeAt_swapL_other l i p q hqi hqne]
      by_cases hbi : b = i
      · subst hbi
        rw [hfst]
        exact h.1 q p hplen hpedge (by omega)
      · have hbp : b ≠ p := by omega
        rw [timeAt_swapL_other l i p b hbi hbp]
        calc timeAt l q ≤ timeAt l p := h.1 q p hplen hpedge (by omega)
          _ ≤ timeAt l b := h.1 p b hb hedge hbi

theorem siftUp_heapInv (l : List TimedEvent) (i : Nat) (h : nearHeapUp l i)
    (hilen : i < l.length) : heapInv (siftUp l i) := by
  rw [siftUp]
  by_cases hi0 : i = 0
  · rw [dif_pos hi0]
    intro a b hb hedge
    refine h.1 a b hb hedge ?_
    omega
  · rw [dif_neg hi0]
    by_cases hcond : timeAt l i < timeAt l ((i-1)/2)
    · rw [if_pos hcond]
      refine siftUp_heapInv _ _ (nearHeapUp_swap l i h hi0 hilen hcond) ?_
      rw [length_swapL]
      omega
    · rw [if_neg hcond]
      intro a b hb hedge
      by_cases hbi : b = i
      · subst hbi
        have hap : a = (b-1)/2 := by omega
        rw [hap]
        exact not_lt.mp hcond
      · exact h.1 a b hb hedge hbi
termination_by i

theorem heapPush_heapInv (l : List TimedEvent) (e : TimedEvent) (h : heapInv l) :
    heapInv (heapPush l e) := by
  unfold heapPush
  have hn := nearHeapUp_append l e h
  refine siftUp_heapInv (l ++ [e]) l.length ⟨hn.1, hn.2⟩ ?_
  simp

theorem foldl_heapPush_heapInv (events : List TimedEvent) :
    heapInv (events.foldl heapPush []) := by
  suffices hgen : ∀ (l : List TimedEvent), heapInv l →
      heapInv (events.foldl heapPush l) by
    exact hgen [] heapInv_nil
  induction events with
  | nil => intro l hl; exact hl
  | cons e es ih =>
    intro l hl
    exact ih (heapPush l e) (heapPush_heapInv l e hl)

/-- C4 amended: the event queue, built by any sequence of pushes, yields its
events in nondecreasing time order under successive pops — the heap really is
a min-heap on time. (Among equal-time events no order is guaranteed; see the
counterexample.) -/
theorem C4_pops_nondecreasing_in_time (events : List TimedEvent) :
    List.Sorted (· ≤ ·) ((popList (events.foldl heapPush [])).map (·.time)) :=
  popListAux_sorted _ _ (foldl_heapPush_heapInv events)

/-- The event-kind tie-break order the spec claims (TaskArrival,
TaskCompletion, InstancePreemption, InstanceLaunch) — stated from the spec, to
compare with the queue's behaviour. -/
def kindRank : Event → Nat
  | .TaskArrival _ _ => 0
  | .TaskCompletion _ _ => 1
  | .InstancePreemption _ _ => 2
  | .InstanceLaunch _ _ _ => 3

/-- An `InstanceLaunch` at t = 1. -/
def evLaunch : TimedEvent := { time := 1, event := .InstanceLaunch 5 1 .Spot }

/-- A `TaskArrival` at the same t = 1. -/
def evArrival : TimedEvent := { time := 1, event := .TaskArrival 6 1 }

/-- C4 counterexample: push an `InstanceLaunch` and then a `TaskArrival`, both
at time 1; the pops yield the launch BEFORE the arrival, though the claimed
kind order puts `TaskArrival` first. `TimedEvent`'s `Ord` compares only times —
equal-time events compare `Equal` and keep heap order, so ties follow the
heap's internal arrangement, not the event kind. -/
theorem C4_counterexample :
    popList (heapPush (heapPush [] evLaunch) evArrival) = [evLaunch, evArrival] ∧
    evLaunch.time = evArrival.time ∧
    kindRank evArrival.event < kindRank evLaunch.event := by
  have h1 : heapPush [] evLaunch = [evLaunch] := by
    simp only [heapPush, List.nil_append, List.length_nil]
    rw [siftUp, dif_pos rfl]
  have h2 : heapPush [evLaunch] evArrival = [evLaunch, evArrival] := by
    simp only [heapPush, List.cons_append, List.nil_append, List.length_cons,
      List.length_nil]
    rw [siftUp, dif_neg (by omega : ¬ (1 = 0))]
    split
    · next hcond =>
        exfalso
        revert hcond
        norm_num [timeAt, List.getD, evLaunch, evArrival]
    · rfl
  rw [h1, h2]
  have hpop1 : heapPop [evLaunch, evArrival] = (some evLaunch, [evArrival]) := by
    simp only [heapPop]
    rw [show ((([evLaunch, evArrival]).dropLast).set 0
        (([evLaunch, evArrival]).getD (([evLaunch, evArrival]).length - 1)
          teDefault)) = [evArrival] from rfl]
    rw [siftDown, dif_neg (by simp : ¬ (2*0+1 < [evArrival].length))]
  refine ⟨?_, rfl, by decide⟩
  simp only [popList, List.length_cons, List.length_nil, popListAux, hpop1]
  rfl

/-- `Simulator::schedule_potential_preemption`: pushes an `InstancePreemption`
event at `current_time + hours_until_preemption`, where the Rust code computes
`hours_until_preemption = -ln(rand::random::<f64>()) / 0.05` and `rand::random`
is the UNSEEDED thread RNG — no seed exists anywhere in the simulator or the
spot-price generator (`SpotPriceGenerator::generate` likewise samples
`rand::thread_rng()`). Since `u ↦ -ln(u)/0.05` maps (0,1] bijectively onto
[0,∞), the drawn delay itself is the model's entropy input `draw`. -/
def schedule_potential_preemption (current_time : ℚ) (instance_id : Nat)
    (draw : ℚ) : TimedEvent :=
  { time := current_time + draw,
    event := .InstancePreemption instance_id (current_time + draw) }

/-- C8 counterexample: two runs with identical simulator inputs (same current
time, same instance; the function takes no seed at all) schedule different
preemption events when the thread RNG hands out different draws — the
simulator's results are not determined by its inputs, and there is no seed
that could make them so. -/
theorem C8_counterexample :
    schedule_potential_preemption 0 7 10 ≠ schedule_potential_preemption 0 7 20 := by
  intro h
  have := congrArg TimedEvent.time h
  simp only [schedule_potential_preemption] at this
  norm_num at this

/-- C8 amended: the scheduled preemption is a function of the simulator inputs
and the thread-RNG draw alone, and it pins the draw down: two runs schedule the
same preemption event iff their RNG draws agree. Reproducibility therefore
requires replaying the draw sequence itself; no seed parameter exists. -/
theorem C8_schedule_determined_by_draw (t : ℚ) (instance_id : Nat) (d₁ d₂ : ℚ) :
    schedule_potential_preemption t instance_id d₁
        = schedule_potential_preemption t instance_id d₂ ↔ d₁ = d₂ := by
  constructor
  · intro h
    have := congrArg TimedEvent.time h
    simpa [schedule_potential_preemption] using this
  · intro h
    rw [h]

end Synkti
